import Mathlib

set_option maxRecDepth 8000

/-!
Verification development for the Git source fetcher
(`src/libfetchers/git.cc`) and the ZIP input accessor
(`src/libfetchers/zip-input-accessor.cc`).

The C++ sources are shallowly embedded: pure helpers become Lean functions,
the effectful fetch pipeline becomes a deterministic function of an explicit
environment record (an oracle giving the outcome of every external effect:
subprocess results, cache lookups, file stats), and every fallible operation
returns `Except`. Subprocess invocations that matter to the statements are
recorded in an event list.
-/

/-! ## Part 1: the ZIP input accessor (`zip-input-accessor.cc`) -/

/-- File types of the accessor's `Stat` (the source's `Type` enumeration
`tRegular`, `tDirectory`, `tSymlink`; renamed `FType` because `Type` is a
Lean keyword). -/
inductive FType
  | tRegular
  | tDirectory
  | tSymlink
  deriving DecidableEq, Repr

/-- The accessor's `Stat`: file type plus the executable bit. -/
structure Stat where
  type : FType
  isExecutable : Bool
  deriving DecidableEq, Repr

/-- The value of libzip's `ZIP_OPSYS_UNIX` constant. -/
def ZIP_OPSYS_UNIX : Nat := 3

/-- One archive entry as reported by `zip_stat_index`: its raw name plus the
data the operations need (origin OS byte and the 32-bit external attributes
word, obtained via `zip_file_get_external_attributes`, and the member's bytes,
which stand for what `zip_fopen_index`/`zip_fread` would read through the
stored index and size). -/
structure ZEntry where
  name : String
  opsys : Nat
  attributes : Nat
  content : String
  deriving DecidableEq, Repr

/-- The in-memory index (`std::map<const char *, zip_stat, cmp_str>`),
modelled as an association list sorted by key; `cmp_str` is byte-wise
`strcmp`, which on these keys agrees with the character order used here. -/
abbrev Members := List (String × ZEntry)

/-- Lexicographic order on character lists, structurally (so the kernel can
evaluate it); on ASCII keys it agrees with `strcmp` and with
`std::less<std::string>`. -/
def charListLt : List Char → List Char → Bool
  | [], [] => false
  | [], _ :: _ => true
  | _ :: _, [] => false
  | c :: cs, d :: ds => decide (c < d) || (c == d && charListLt cs ds)

/-- The string order used by the ordered maps. -/
def strLt (a b : String) : Bool :=
  charListLt a.data b.data

/-- Sorted-map insertion with `emplace` semantics: an existing key keeps its
old value. -/
def mapEmplace : Members → String → ZEntry → Members
  | [], k, v => [(k, v)]
  | (k0, v0) :: rest, k, v =>
    if strLt k k0 then (k, v) :: (k0, v0) :: rest
    else if k = k0 then (k0, v0) :: rest
    else (k0, v0) :: mapEmplace rest k v

/-- Map lookup (`members.find`), first exact key match. -/
def membersFind : Members → String → Option ZEntry
  | [], _ => none
  | (k, v) :: rest, q => if k = q then some v else membersFind rest q

/-- Whether the index holds an entry under exactly this key. -/
def containsKey (m : Members) (q : String) : Bool :=
  (membersFind m q).isSome

/-- The suffix of a character list starting at its first `'/'` (included),
or `none` when the list holds no `'/'`. This is what the constructor's
`strchr(sb.name, '/')` pointer denotes. -/
def firstSlashSuffixAux : List Char → Option (List Char)
  | [] => none
  | c :: cs => if c = '/' then some (c :: cs) else firstSlashSuffixAux cs

/-- The suffix of a name starting at its first `'/'`, as a string key. -/
def firstSlashSuffix (s : String) : Option String :=
  (firstSlashSuffixAux s.data).map fun cs => String.mk cs

/-- The constructor's indexing loop (`zip-input-accessor.cc` lines 45-53):
iterate over all entries in archive order; an entry whose name holds no `'/'`
is skipped (`if (!slash) continue`), otherwise the entry is inserted under
the key `slash`, the suffix of its name from the first `'/'`. -/
def zipIndexAux (m : Members) : List ZEntry → Members
  | [] => m
  | e :: es =>
    match firstSlashSuffix e.name with
    | none => zipIndexAux m es
    | some k => zipIndexAux (mapEmplace m k e) es

/-- The index built by `ZipInputAccessor::ZipInputAccessor`. -/
def zipIndex (es : List ZEntry) : Members :=
  zipIndexAux [] es

/-- Splitting a character list on `'/'` (structurally, so that the kernel
can evaluate it on concrete paths). -/
def splitOnSlash : List Char → List (List Char)
  | [] => [[]]
  | c :: cs =>
    if c = '/' then [] :: splitOnSlash cs
    else
      match splitOnSlash cs with
      | [] => [[c]]
      | g :: gs => (c :: g) :: gs

/-- Modelled from the spec: `canonPath` (a path utility outside `src/`,
declared an external collaborator) drops empty and `"."` components and
resolves `".."` upward. -/
def canonPathComponents (cs : List (List Char)) : List (List Char) :=
  cs.foldl
    (fun acc c =>
      if c = [] then acc
      else if c = ['.'] then acc
      else if c = ['.', '.'] then acc.dropLast
      else acc ++ [c])
    []

/-- Joining canonical components back with `'/'` separators. -/
def joinComponents : List (List Char) → List Char
  | [] => []
  | [g] => g
  | g :: gs => g ++ '/' :: joinComponents gs

/-- Modelled from the spec: the canonical form of a path, always beginning
with `'/'`. -/
def canonPath (p : String) : String :=
  String.mk ('/' :: joinComponents (canonPathComponents (splitOnSlash p.data)))

-- Decidable equality of results, used to state concrete evaluations.
deriving instance DecidableEq for Except

/-- Errors raised by the ZIP accessor's operations. -/
inductive ZipError
  | doesNotExist (p : String)
  | dirDoesNotExist (p : String)
  | unsupportedType (p : String) (t : Nat)
  | unimplemented
  deriving DecidableEq, Repr

/-- `ZipInputAccessor::readFile`: canonicalize, look the path up in the
index, read the member's bytes; a missing path is an error. -/
def readFile (m : Members) (p0 : String) : Except ZipError String :=
  match membersFind m (canonPath p0) with
  | none => .error (.doesNotExist (canonPath p0))
  | some e => .ok e.content

/-- `ZipInputAccessor::pathExists`: canonicalize and look up. -/
def pathExists (m : Members) (p0 : String) : Bool :=
  containsKey m (canonPath p0)

/-- The body of `ZipInputAccessor::lstat` once a member is found.
`typeOuter` is the source's outer `type` variable (`tRegular` initially, or
`tDirectory` after the trailing-slash retry of the lookup). Inside the
`ZIP_OPSYS_UNIX` case the source redeclares `type`
(`auto type = (attributes >> 16) & 0770000;`), so the assignments in the
inner switch's case labels target that inner shadowing variable, here
`typeInner`; only `isExecutable` refers to an outer variable. The returned
`Stat` is built from the outer variables. -/
def lstatEntry (path : String) (typeOuter : FType) (e : ZEntry) : Except ZipError Stat :=
  if e.opsys = ZIP_OPSYS_UNIX then
    let typeInner := (e.attributes >>> 16) &&& 0o770000
    if typeInner = 0o040000 then
      .ok { type := typeOuter, isExecutable := false }
    else if typeInner = 0o100000 then
      .ok { type := typeOuter, isExecutable := ((e.attributes >>> 16) &&& 0o000100) != 0 }
    else if typeInner = 0o120000 then
      .ok { type := typeOuter, isExecutable := false }
    else
      .error (.unsupportedType path typeInner)
  else
    .ok { type := typeOuter, isExecutable := false }

/-- `ZipInputAccessor::lstat`: canonicalize; look the path up, and when
absent retry with a trailing `'/'`, treating a hit as a directory; decode
the external attributes. -/
def lstat (m : Members) (p0 : String) : Except ZipError Stat :=
  match membersFind m (canonPath p0) with
  | some e => lstatEntry (canonPath p0) FType.tRegular e
  | none =>
    match membersFind m (canonPath p0 ++ "/") with
    | some e => lstatEntry (canonPath p0) FType.tDirectory e
    | none => .error (.doesNotExist (canonPath p0))

/-- The scan of `ZipInputAccessor::readDirectory` (lines 139-145): walk the
entries after the directory's own key while they still carry the directory
key as a leading part (the loop stops at the first key that does not,
exactly as the `strncmp` loop condition does on the ordered map); skip
entries with a further interior `'/'`; collect the immediate child names,
where a trailing-slash marker contributes its name without the slash. -/
def readDirScan (path : String) : Members → List String
  | [] => []
  | (k, _) :: rest =>
    if path.isPrefixOf k then
      match firstSlashSuffix (String.mk (k.data.drop path.length)) with
      | some s =>
        if s = "/" then
          String.mk ((k.data.drop path.length).dropLast) :: readDirScan path rest
        else
          readDirScan path rest
      | none => String.mk (k.data.drop path.length) :: readDirScan path rest
    else []

/-- Map search returning the entries after the found key (`members.find`
followed by `++i`), or `none` when the key is absent. -/
def findTail : Members → String → Option Members
  | [], _ => none
  | (k, _) :: rest, q => if k = q then some rest else findTail rest q

/-- `ZipInputAccessor::readDirectory`: the canonical path plus `"/"` must
itself be a key of the index (the directory's own marker entry), otherwise
the directory-does-not-exist error; on a hit, scan the following entries
for immediate children. -/
def readDirectory (m : Members) (p0 : String) : Except ZipError (List String) :=
  match findTail m (canonPath p0 ++ "/") with
  | none => .error (.dirDoesNotExist (canonPath p0 ++ "/"))
  | some rest => .ok (readDirScan (canonPath p0 ++ "/") rest)

/-- `ZipInputAccessor::readLink` is unimplemented and always fails. -/
def readLink (p0 : String) : Except ZipError String :=
  .error .unimplemented

/-! ## Lemmas about the ZIP index -/

theorem isSome_membersFind_mapEmplace (m : Members) (k q : String) (v : ZEntry) :
    (membersFind (mapEmplace m k v) q).isSome
      = ((membersFind m q).isSome || decide (k = q)) := by
  induction m with
  | nil =>
    simp only [mapEmplace, membersFind]
    by_cases h : k = q <;> simp [h]
  | cons hd tl ih =>
    obtain ⟨k0, v0⟩ := hd
    cases hlt : strLt k k0 with
    | true =>
      by_cases hk : k = q
      · subst hk
        simp [mapEmplace, hlt, membersFind]
      · by_cases h0 : k0 = q
        · subst h0
          simp [mapEmplace, hlt, membersFind, hk]
        · simp [mapEmplace, hlt, membersFind, hk, h0]
    | false =>
      by_cases heq : k = k0
      · subst heq
        by_cases hk : k = q
        · subst hk
          simp [mapEmplace, hlt, membersFind]
        · simp [mapEmplace, hlt, membersFind, hk]
      · by_cases h0 : k0 = q
        · subst h0
          simp [mapEmplace, hlt, heq, membersFind, ih]
        · simp [mapEmplace, hlt, heq, membersFind, h0, ih]

theorem mem_mapEmplace (m : Members) (k q : String) (v w : ZEntry)
    (h : (q, w) ∈ mapEmplace m k v) : (q, w) ∈ m ∨ ((q, w) = (k, v)) := by
  induction m with
  | nil =>
    simp only [mapEmplace, List.mem_singleton] at h
    exact Or.inr h
  | cons hd tl ih =>
    obtain ⟨k0, v0⟩ := hd
    cases hlt : strLt k k0 with
    | true =>
      simp only [mapEmplace, hlt, if_true, List.mem_cons] at h
      rcases h with h | h | h
      · exact Or.inr h
      · exact Or.inl (by simp [h])
      · exact Or.inl (List.mem_cons_of_mem _ h)
    | false =>
      by_cases heq : k = k0
      · subst heq
        simp only [mapEmplace, hlt, if_pos rfl, Bool.false_eq_true, if_false] at h
        exact Or.inl h
      · simp only [mapEmplace, hlt, heq, Bool.false_eq_true, if_false, List.mem_cons] at h
        rcases h with h | h
        · exact Or.inl (by simp [h])
        · rcases ih h with h2 | h2
          · exact Or.inl (List.mem_cons_of_mem _ h2)
          · exact Or.inr h2

theorem containsKey_zipIndexAux (m : Members) (es : List ZEntry) (q : String) :
    containsKey (zipIndexAux m es) q = true ↔
      (containsKey m q = true ∨ ∃ e ∈ es, firstSlashSuffix e.name = some q) := by
  induction es generalizing m with
  | nil => simp [zipIndexAux]
  | cons e es ih =>
    simp only [zipIndexAux]
    cases he : firstSlashSuffix e.name with
    | none =>
      rw [ih]
      constructor
      · rintro (h | ⟨e2, h2, h3⟩)
        · exact Or.inl h
        · exact Or.inr ⟨e2, List.mem_cons_of_mem _ h2, h3⟩
      · rintro (h | ⟨e2, h2, h3⟩)
        · exact Or.inl h
        · rcases List.mem_cons.mp h2 with rfl | h2
          · rw [he] at h3; cases h3
          · exact Or.inr ⟨e2, h2, h3⟩
    | some k =>
      rw [ih]
      unfold containsKey
      rw [isSome_membersFind_mapEmplace]
      constructor
      · rintro (h | ⟨e2, h2, h3⟩)
        · rcases Bool.or_eq_true_iff.mp h with h | h
          · exact Or.inl h
          · exact Or.inr ⟨e, List.mem_cons_self _ _, by rw [he, of_decide_eq_true h]⟩
        · exact Or.inr ⟨e2, List.mem_cons_of_mem _ h2, h3⟩
      · rintro (h | ⟨e2, h2, h3⟩)
        · exact Or.inl (Bool.or_eq_true_iff.mpr (Or.inl h))
        · rcases List.mem_cons.mp h2 with rfl | h2
          · rw [he] at h3
            exact Or.inl (Bool.or_eq_true_iff.mpr (Or.inr (by
              simp [Option.some_inj.mp h3])))
          · exact Or.inr ⟨e2, h2, h3⟩

theorem mem_zipIndexAux (m : Members) (es : List ZEntry) (q : String) (w : ZEntry)
    (h : (q, w) ∈ zipIndexAux m es) :
    (q, w) ∈ m ∨ ∃ e ∈ es, firstSlashSuffix e.name = some q ∧ w = e := by
  induction es generalizing m with
  | nil => exact Or.inl h
  | cons e es ih =>
    simp only [zipIndexAux] at h
    cases he : firstSlashSuffix e.name with
    | none =>
      rw [he] at h
      rcases ih m h with h2 | ⟨e2, h2, h3, h4⟩
      · exact Or.inl h2
      · exact Or.inr ⟨e2, List.mem_cons_of_mem _ h2, h3, h4⟩
    | some k =>
      rw [he] at h
      rcases ih _ h with h2 | ⟨e2, h2, h3, h4⟩
      · rcases mem_mapEmplace m k q e w h2 with h3 | h3
        · exact Or.inl h3
        · obtain ⟨h3a, h3b⟩ := Prod.ext_iff.mp h3
          exact Or.inr ⟨e, List.mem_cons_self _ _, by rw [he]; exact congrArg some h3a.symm, h3b⟩
      · exact Or.inr ⟨e2, List.mem_cons_of_mem _ h2, h3, h4⟩

theorem firstSlashSuffixAux_eq_none_iff (cs : List Char) :
    firstSlashSuffixAux cs = none ↔ '/' ∉ cs := by
  induction cs with
  | nil => simp [firstSlashSuffixAux]
  | cons c cs ih =>
    by_cases h : c = '/'
    · subst h; simp [firstSlashSuffixAux]
    · simp only [firstSlashSuffixAux, if_neg h, ih, List.mem_cons]
      constructor
      · rintro h2 (h3 | h3)
        · exact h h3.symm
        · exact h2 h3
      · intro h2 h3
        exact h2 (Or.inr h3)

theorem firstSlashSuffixAux_eq_some_iff (cs ds : List Char) :
    firstSlashSuffixAux cs = some ds ↔
      ∃ pre, (∀ c ∈ pre, c ≠ '/') ∧ cs = pre ++ ds ∧ ds.head? = some '/' := by
  induction cs generalizing ds with
  | nil =>
    simp only [firstSlashSuffixAux]
    constructor
    · intro h; cases h
    · rintro ⟨pre, _, h2, h3⟩
      have : ds ≠ [] := by
        intro h4; rw [h4] at h3; cases h3
      rcases List.append_eq_nil.mp h2.symm with ⟨-, h5⟩
      exact absurd h5 this
  | cons c cs ih =>
    by_cases h : c = '/'
    · subst h
      constructor
      · intro h2
        have h3 : ('/' : Char) :: cs = ds := by
          simpa [firstSlashSuffixAux] using h2
        exact ⟨[], by simp, by simp [h3], by simp [← h3]⟩
      · rintro ⟨pre, h1, h2, h3⟩
        cases pre with
        | nil =>
          simp only [firstSlashSuffixAux, if_pos rfl, Option.some_inj]
          simpa using h2
        | cons p ps =>
          exfalso
          have hp : p = '/' := (List.cons_eq_cons.mp h2).1.symm
          exact h1 p (List.mem_cons_self _ _) hp
    · simp only [firstSlashSuffixAux, if_neg h, ih]
      constructor
      · rintro ⟨pre, h1, h2, h3⟩
        refine ⟨c :: pre, ?_, by simp [h2], h3⟩
        intro x hx
        rcases List.mem_cons.mp hx with rfl | hx
        · exact h
        · exact h1 x hx
      · rintro ⟨pre, h1, h2, h3⟩
        cases pre with
        | nil =>
          exfalso
          have h4 : c :: cs = ds := by simpa using h2
          rw [← h4] at h3
          exact h (by simpa using h3)
        | cons p ps =>
          have hpc : p = c := (List.cons_eq_cons.mp h2.symm).1
          have htl : cs = ps ++ ds := (List.cons_eq_cons.mp h2.symm).2.symm
          refine ⟨ps, ?_, htl, h3⟩
          intro x hx
          exact h1 x (List.mem_cons_of_mem _ hx)

theorem zipIndexAux_filter (m : Members) (es : List ZEntry) :
    zipIndexAux m (es.filter fun e => (firstSlashSuffix e.name).isSome)
      = zipIndexAux m es := by
  induction es generalizing m with
  | nil => rfl
  | cons e es ih =>
    cases he : firstSlashSuffix e.name with
    | none => simp [zipIndexAux, List.filter, he, ih]
    | some k => simp [zipIndexAux, List.filter, he, ih]

theorem isSome_findTail (m : Members) (q : String) :
    (findTail m q).isSome = containsKey m q := by
  induction m with
  | nil => rfl
  | cons hd tl ih =>
    obtain ⟨k, v⟩ := hd
    by_cases h : k = q <;> simp [findTail, containsKey, membersFind, h] <;>
      simpa [containsKey] using ih

theorem firstSlashSuffix_eq_some_iff (s k : String) :
    firstSlashSuffix s = some k ↔
      ∃ pre, (∀ c ∈ pre, c ≠ '/') ∧ s.data = pre ++ k.data ∧ k.data.head? = some '/' := by
  unfold firstSlashSuffix
  rw [Option.map_eq_some']
  constructor
  · rintro ⟨cs, h1, rfl⟩
    exact (firstSlashSuffixAux_eq_some_iff s.data cs).mp h1
  · rintro h
    exact ⟨k.data, (firstSlashSuffixAux_eq_some_iff s.data k.data).mpr h, String.ext rfl⟩

theorem firstSlashSuffix_eq_none_iff (s : String) :
    firstSlashSuffix s = none ↔ '/' ∉ s.data := by
  unfold firstSlashSuffix
  rw [Option.map_eq_none']
  exact firstSlashSuffixAux_eq_none_iff s.data

theorem containsKey_zipIndex (es : List ZEntry) (q : String) :
    containsKey (zipIndex es) q = true ↔
      ∃ e ∈ es, firstSlashSuffix e.name = some q := by
  unfold zipIndex
  rw [containsKey_zipIndexAux]
  simp [containsKey, membersFind]

theorem lstatEntry_ne_doesNotExist (path q : String) (t : FType) (e : ZEntry) :
    lstatEntry path t e ≠ .error (.doesNotExist q) := by
  simp only [lstatEntry]
  split_ifs <;> simp

/-- C9: the in-memory ZIP index keys each slash-containing entry name by the
suffix that begins at the name's first `'/'` (so every key begins with `'/'`
and the leading path component is stripped); entries without a `'/'` are not
indexed at all (dropping them leaves the index unchanged); and pathExists,
readFile, lstat and readDirectory all resolve the canonicalized query
against these first-slash suffixes, not against full entry names. -/
theorem C9_theorem (es : List ZEntry) (p : String) (s k : String) :
    (firstSlashSuffix s = some k ↔
      ∃ pre, (∀ c ∈ pre, c ≠ '/') ∧ s.data = pre ++ k.data ∧ k.data.head? = some '/')
    ∧ (firstSlashSuffix s = none ↔ '/' ∉ s.data)
    ∧ zipIndex (es.filter fun e => (firstSlashSuffix e.name).isSome) = zipIndex es
    ∧ (∀ kv ∈ zipIndex es,
        kv.1.data.head? = some '/' ∧ ∃ e ∈ es, firstSlashSuffix e.name = some kv.1)
    ∧ (pathExists (zipIndex es) p = true ↔
        ∃ e ∈ es, firstSlashSuffix e.name = some (canonPath p))
    ∧ ((∃ c, readFile (zipIndex es) p = .ok c) ↔
        ∃ e ∈ es, firstSlashSuffix e.name = some (canonPath p))
    ∧ (lstat (zipIndex es) p = .error (.doesNotExist (canonPath p)) ↔
        ¬ ∃ e ∈ es, (firstSlashSuffix e.name = some (canonPath p)
          ∨ firstSlashSuffix e.name = some (canonPath p ++ "/")))
    ∧ (readDirectory (zipIndex es) p
        = .error (.dirDoesNotExist (canonPath p ++ "/")) ↔
        ¬ ∃ e ∈ es, firstSlashSuffix e.name = some (canonPath p ++ "/")) := by
  refine ⟨firstSlashSuffix_eq_some_iff s k, firstSlashSuffix_eq_none_iff s,
    zipIndexAux_filter [] es, ?_, ?_, ?_, ?_, ?_⟩
  · rintro ⟨q, w⟩ hkv
    rcases mem_zipIndexAux [] es q w hkv with h | ⟨e, he, hs, -⟩
    · cases h
    · refine ⟨?_, e, he, hs⟩
      rcases (firstSlashSuffix_eq_some_iff e.name q).mp hs with ⟨pre, -, -, hh⟩
      exact hh
  · exact (containsKey_zipIndex es (canonPath p))
  · rw [← containsKey_zipIndex es (canonPath p)]
    unfold readFile containsKey
    cases membersFind (zipIndex es) (canonPath p) <;> simp
  · have hsplit : (∃ e ∈ es, (firstSlashSuffix e.name = some (canonPath p)
        ∨ firstSlashSuffix e.name = some (canonPath p ++ "/"))) ↔
        ((∃ e ∈ es, firstSlashSuffix e.name = some (canonPath p))
          ∨ (∃ e ∈ es, firstSlashSuffix e.name = some (canonPath p ++ "/"))) := by
      constructor
      · rintro ⟨e, he, h | h⟩
        exacts [Or.inl ⟨e, he, h⟩, Or.inr ⟨e, he, h⟩]
      · rintro (⟨e, he, h⟩ | ⟨e, he, h⟩)
        exacts [⟨e, he, Or.inl h⟩, ⟨e, he, Or.inr h⟩]
    rw [hsplit, ← containsKey_zipIndex es (canonPath p),
      ← containsKey_zipIndex es (canonPath p ++ "/")]
    unfold lstat containsKey
    cases h1 : membersFind (zipIndex es) (canonPath p) with
    | some e => simp [lstatEntry_ne_doesNotExist]
    | none =>
      cases h2 : membersFind (zipIndex es) (canonPath p ++ "/") with
      | some e => simp [lstatEntry_ne_doesNotExist]
      | none => simp
  · rw [← containsKey_zipIndex es (canonPath p ++ "/"), ← isSome_findTail]
    unfold readDirectory
    cases findTail (zipIndex es) (canonPath p ++ "/") <;> simp

/-- C10: readDirectory raises the directory-does-not-exist error exactly when
the index lacks an entry keyed by the canonical path followed by `'/'` (the
directory's own marker); in particular it never lists children of a
directory without its own marker entry, however many indexed entries lie
strictly below the queried path. -/
theorem C10_theorem (m : Members) (p : String) :
    (readDirectory m p = .error (.dirDoesNotExist (canonPath p ++ "/")) ↔
      containsKey m (canonPath p ++ "/") = false)
    ∧ ((∃ entries, readDirectory m p = .ok entries) ↔
      containsKey m (canonPath p ++ "/") = true) := by
  rw [← isSome_findTail]
  unfold readDirectory
  cases findTail m (canonPath p ++ "/") <;> simp

/-- A Unix-origin archive member with symlink mode 0120777 in the upper 16
bits of its external attributes, indexed under the key `/link`. -/
def zSymlinkEntry : ZEntry :=
  { name := "pkg/link", opsys := 3, attributes := 0o120777 <<< 16, content := "target" }

/-- C8: evaluation of lstat at the failing input. The entry's origin OS is
Unix and the upper 16 bits of its external attributes decode to the symlink
mode 0120000, yet lstat returns type tRegular: the decoded type is assigned
to the inner shadowing `type` variable of the switch, so the outer `type`
the returned Stat is built from keeps its initial value. -/
theorem C8_theorem :
    zSymlinkEntry.opsys = ZIP_OPSYS_UNIX
    ∧ ((zSymlinkEntry.attributes >>> 16) &&& 0o770000) = 0o120000
    ∧ lstat (zipIndex [zSymlinkEntry]) "/link"
        = .ok { type := FType.tRegular, isExecutable := false } :=
  ⟨rfl, rfl, rfl⟩

/-! ## Part 2: the Git input scheme (`git.cc`, `GitInputScheme`) -/

/-- A parsed URL (`ParsedURL` from the URL utilities outside `src/`): scheme,
an opaque base (authority plus path), and the query, a `std::map` from
parameter name to value modelled as an association list sorted by key. -/
structure ParsedURL where
  scheme : String
  base : String
  query : List (String × String)
  deriving DecidableEq, Repr

/-- Attribute values (`Attr` is `std::variant<std::string, uint64_t,
Explicit<bool>>`). The extra `urlv` constructor stands for the serialized
URL string held by the `url` attribute: the URL printer and parser live
outside `src/` and the spec declares them exact inverses, so serialization
is modelled as the identity embedding of the parsed form. -/
inductive AttrVal
  | str (s : String)
  | intv (n : Nat)
  | boolv (b : Bool)
  | urlv (u : ParsedURL)
  deriving DecidableEq, Repr

/-- Attribute sets (`Attrs` is `std::map<std::string, Attr>`), modelled as an
association list with map semantics; no statement below depends on the
iteration order of attribute sets. -/
abbrev Attrs := List (String × AttrVal)

/-- First-match attribute lookup. -/
def lookupAttr : Attrs → String → Option AttrVal
  | [], _ => none
  | (k, v) :: rest, q => if k = q then some v else lookupAttr rest q

/-- Map `emplace` on attribute sets: an existing key keeps its old value. -/
def attrsEmplace (a : Attrs) (k : String) (v : AttrVal) : Attrs :=
  match lookupAttr a k with
  | some _ => a
  | none => a ++ [(k, v)]

/-- Map `insert_or_assign` on attribute sets. -/
def insertOrAssign : Attrs → String → AttrVal → Attrs
  | [], k, v => [(k, v)]
  | (k0, v0) :: rest, k, v =>
    if k0 = k then (k, v) :: rest else (k0, v0) :: insertOrAssign rest k v

/-- Query-map lookup. -/
def qLookup : List (String × String) → String → Option String
  | [], _ => none
  | (k, v) :: rest, q => if k = q then some v else qLookup rest q

/-- Query-map `emplace` into the sorted list: an existing key keeps its old
value. -/
def qEmplace : List (String × String) → String → String → List (String × String)
  | [], k, v => [(k, v)]
  | (k0, v0) :: rest, k, v =>
    if strLt k k0 then (k, v) :: (k0, v0) :: rest
    else if k = k0 then (k0, v0) :: rest
    else (k0, v0) :: qEmplace rest k v

/-- Query-map `insert_or_assign` into the sorted list. -/
def qInsertOrAssign : List (String × String) → String → String → List (String × String)
  | [], k, v => [(k, v)]
  | (k0, v0) :: rest, k, v =>
    if strLt k k0 then (k, v) :: (k0, v0) :: rest
    else if k = k0 then (k, v) :: rest
    else (k0, v0) :: qInsertOrAssign rest k v

/-- An input is its attribute set (`Input` carries `attrs`; its other state
does not matter to these claims). -/
structure Input where
  attrs : Attrs
  deriving DecidableEq, Repr

/-- Lowercase hexadecimal digit test. -/
def isHexDigitLower (c : Char) : Bool :=
  ("0123456789abcdef".data).contains c

/-- Modelled from the spec: `Hash::parseAny` accepting a Git revision
(`rev`, when present, must be SHA-1 or SHA-256 hex); the hash value is
modelled as its canonical lowercase hex rendering, so `gitRev` is the
identity on it. -/
def isGitHash (s : String) : Bool :=
  (s.length == 40 || s.length == 64) && s.data.all isHexDigitLower

/-- Modelled from the spec: `Hash::parseAny(..., htSHA1)`, a 40-digit hex
revision. -/
def isSha1Hash (s : String) : Bool :=
  s.length == 40 && s.data.all isHexDigitLower

/-- Structural test that the first list leads the second (used instead of
the substring-based String functions so the kernel can evaluate). -/
def leadingMatch : List Char → List Char → Bool
  | [], _ => true
  | _ :: _, [] => false
  | c :: cs, d :: ds => c == d && leadingMatch cs ds

/-- Structural occurrence test of one character list inside another. -/
def occursIn (p : List Char) : List Char → Bool
  | [] => p.isEmpty
  | d :: ds => leadingMatch p (d :: ds) || occursIn p ds

/-- Modelled from the spec: `badGitRefRegex` (declared in `url-parts.hh`,
outside `src/`). The spec rejects ref names with embedded spaces, control
characters, the sequences `..` or `@` followed by an opening brace, or a
leading `-`. -/
def badGitRef (r : String) : Bool :=
  r.data.any (fun c => c == ' ' || decide (c.toNat < 32))
    || occursIn ("..".data) r.data
    || occursIn ("@\x7b".data) r.data
    || leadingMatch ("-".data) r.data

/-- fetchers' `maybeGetStrAttr`: `none` when absent, the string when the
attribute is a string, an error when it exists with another type. -/
def maybeGetStrAttr (a : Attrs) (k : String) : Except String (Option String) :=
  match lookupAttr a k with
  | none => .ok none
  | some (.str s) => .ok (some s)
  | some _ => .error ("attribute " ++ k ++ " is not a string")

/-- fetchers' `maybeGetBoolAttr`: `none` when absent, the flag when the
attribute is an explicit boolean, an error otherwise. -/
def maybeGetBoolAttr (a : Attrs) (k : String) : Except String (Option Bool) :=
  match lookupAttr a k with
  | none => .ok none
  | some (.boolv b) => .ok (some b)
  | some _ => .error ("attribute " ++ k ++ " is not a Boolean")

/-- The `url` attribute read back through `parseURL(getStrAttr(attrs,
"url"))`: present and of URL shape, or an error. -/
def getUrlAttr (a : Attrs) : Except String ParsedURL :=
  match lookupAttr a "url" with
  | some (.urlv u) => .ok u
  | some _ => .error "attribute url is not a string"
  | none => .error "attribute url missing"

/-- `Input::getRev` (defined outside `src/`): parses the `rev` attribute as
a hash; absent gives `none`, present but unparsable is an error. -/
def getRevE (a : Attrs) : Except String (Option String) := do
  match ← maybeGetStrAttr a "rev" with
  | none => .ok none
  | some s => if isGitHash s then .ok (some s) else .error "invalid rev hash"

/-- `Input::getRef` (defined outside `src/`): the `ref` attribute as a
string. -/
def getRefE (a : Attrs) : Except String (Option String) :=
  maybeGetStrAttr a "ref"

/-- The attribute names `GitInputScheme::inputFromAttrs` accepts (`git.cc`
lines 184-186). -/
def allowedGitAttrNames : List String :=
  ["type", "url", "ref", "rev", "shallow", "submodules", "lastModified",
   "revCount", "narHash", "allRefs", "name"]

/-- `GitInputScheme::inputFromAttrs` (`git.cc` lines 180-201): reject a
non-git type (by returning no input), reject unknown attribute names, require
a parsable `url` attribute, require the three flag attributes to be Booleans
when present, and reject a `ref` matching the bad-ref-name pattern. Note
that there is no check relating `rev` and `ref` here. -/
def inputFromAttrs (attrs : Attrs) : Except String (Option Input) := do
  if (maybeGetStrAttr attrs "type").toOption.join != some "git" then
    .ok none
  else if attrs.any (fun kv => !(allowedGitAttrNames.contains kv.1)) then
    .error "unsupported Git input attribute"
  else do
    let _ ← getUrlAttr attrs
    let _ ← maybeGetBoolAttr attrs "shallow"
    let _ ← maybeGetBoolAttr attrs "submodules"
    let _ ← maybeGetBoolAttr attrs "allRefs"
    match ← maybeGetStrAttr attrs "ref" with
    | some r => if badGitRef r then .error "invalid Git branch/tag name" else pure ()
    | none => pure ()
    .ok (some { attrs := attrs })

/-- The accepted URL schemes of `GitInputScheme::inputFromURL` (`git.cc`
lines 153-157). -/
def gitUrlSchemes : List String :=
  ["git", "git+http", "git+https", "git+ssh", "git+file"]

/-- The loop body of `inputFromURL` (`git.cc` lines 166-173): `rev` and
`ref` parameters become string attributes, `shallow` and `submodules` become
explicit Boolean attributes (true exactly on the value `"1"`), every other
parameter is kept on the transport URL's query. -/
def promoteQueryStep (st : Attrs × List (String × String)) (kv : String × String) :
    Attrs × List (String × String) :=
  if kv.1 == "rev" || kv.1 == "ref" then
    (attrsEmplace st.1 kv.1 (.str kv.2), st.2)
  else if kv.1 == "shallow" || kv.1 == "submodules" then
    (attrsEmplace st.1 kv.1 (.boolv (kv.2 == "1")), st.2)
  else
    (st.1, qEmplace st.2 kv.1 kv.2)

/-- `GitInputScheme::inputFromURL` (`git.cc` lines 151-178): scheme check,
`git+` strip, query partition, then `inputFromAttrs`. -/
def inputFromURL (url : ParsedURL) : Except String (Option Input) :=
  if !(gitUrlSchemes.contains url.scheme) then .ok none
  else
    let scheme2 :=
      if leadingMatch ("git+".data) url.scheme.data then String.mk (url.scheme.data.drop 4)
      else url.scheme
    let st := url.query.foldl promoteQueryStep (attrsEmplace [] "type" (.str "git"), [])
    let attrs := attrsEmplace st.1 "url" (.urlv { scheme := scheme2, base := url.base, query := st.2 })
    inputFromAttrs attrs

/-- `GitInputScheme::toURL` (`git.cc` lines 203-212): re-parse the stored
URL, restore the `git+` scheme, and write back the `rev`, `ref` and
`shallow` query parameters. Nothing restores `submodules`. -/
def toURL (input : Input) : Except String ParsedURL := do
  let url ← getUrlAttr input.attrs
  let url := if url.scheme != "git" then { url with scheme := "git+" ++ url.scheme } else url
  let url ← do
    match ← getRevE input.attrs with
    | some rv => pure { url with query := qInsertOrAssign url.query "rev" rv }
    | none => pure url
  let url ← do
    match ← getRefE input.attrs with
    | some rf => pure { url with query := qInsertOrAssign url.query "ref" rf }
    | none => pure url
  let sh ← maybeGetBoolAttr input.attrs "shallow"
  if sh.getD false then
    .ok { url with query := qInsertOrAssign url.query "shallow" "1" }
  else
    .ok url

/-- The final check of `applyOverrides` (`git.cc` line 222): fail when the
resulting attribute set has a rev (`res.getRev()`) but no ref
(`res.getRef()`). -/
def applyOverridesCheck (attrs2 : Attrs) : Except String Input := do
  let refv ← getRefE attrs2
  let revv ← getRevE attrs2
  if refv.isNone && revv.isSome then
    .error "Git input has a commit hash but no branch/tag name"
  else
    .ok { attrs := attrs2 }

/-- `GitInputScheme::applyOverrides` (`git.cc` lines 214-225): overwrite the
`rev` and `ref` attributes when given, then fail when the result has a rev
but no ref. -/
def applyOverrides (input : Input) (ref : Option String) (rev : Option String) :
    Except String Input :=
  applyOverridesCheck
    (match ref with
     | some r =>
       insertOrAssign
         (match rev with
          | some v => insertOrAssign input.attrs "rev" (.str v)
          | none => input.attrs) "ref" (.str r)
     | none =>
       match rev with
       | some v => insertOrAssign input.attrs "rev" (.str v)
       | none => input.attrs)

/-! ## Attribute-map lemmas -/

theorem lookupAttr_append (a b : Attrs) (q : String) :
    lookupAttr (a ++ b) q =
      match lookupAttr a q with
      | some v => some v
      | none => lookupAttr b q := by
  induction a with
  | nil => simp [lookupAttr]
  | cons hd tl ih =>
    obtain ⟨k, v⟩ := hd
    by_cases h : k = q <;> simp [lookupAttr, h, ih]

theorem lookupAttr_insertOrAssign_self (a : Attrs) (k : String) (v : AttrVal) :
    lookupAttr (insertOrAssign a k v) k = some v := by
  induction a with
  | nil => simp [insertOrAssign, lookupAttr]
  | cons hd tl ih =>
    obtain ⟨k0, v0⟩ := hd
    by_cases h : k0 = k <;> simp [insertOrAssign, lookupAttr, h, ih]

theorem lookupAttr_insertOrAssign_ne (a : Attrs) (k q : String) (v : AttrVal)
    (h : k ≠ q) : lookupAttr (insertOrAssign a k v) q = lookupAttr a q := by
  induction a with
  | nil => simp [insertOrAssign, lookupAttr, h]
  | cons hd tl ih =>
    obtain ⟨k0, v0⟩ := hd
    by_cases h0 : k0 = k
    · subst h0
      simp [insertOrAssign, lookupAttr, h]
    · by_cases hq : k0 = q <;>
        simp [insertOrAssign, lookupAttr, h0, hq, ih, Ne.symm h]

/-- A 40-character lowercase hex revision used by several concrete runs. -/
def revHex40 : String := "aaaaaaaaaaaaaaaaaaaaaaaaaaaaaaaaaaaaaaaa"

/-- The attribute set of the C5 counterexample: a well-formed git input
carrying a `rev` but no `ref`. -/
def attrsC5 : Attrs :=
  [("type", .str "git"),
   ("url", .urlv { scheme := "https", base := "example.org/repo", query := [] }),
   ("rev", .str revHex40)]

/-- C5 counterexample: `inputFromAttrs` accepts an attribute set with `rev`
present and `ref` absent; no validation error relates the two there. -/
theorem C5_counterexample :
    inputFromAttrs attrsC5 = .ok (some { attrs := attrsC5 })
    ∧ lookupAttr attrsC5 "rev" = some (.str revHex40)
    ∧ lookupAttr attrsC5 "ref" = none :=
  ⟨rfl, rfl, rfl⟩

/-- C5 amended: only `applyOverrides` enforces the rev-needs-ref rule — any
input it returns has a `ref` attribute whenever it has a `rev` attribute —
while `inputFromAttrs` performs no such check and accepts an attribute set
with `rev` but no `ref` (the concrete acceptance restated here). -/
theorem C5_theorem :
    (∀ (i : Input) (r v : Option String) (res : Input),
        applyOverrides i r v = .ok res →
        (lookupAttr res.attrs "rev").isSome = true →
        (lookupAttr res.attrs "ref").isSome = true)
    ∧ inputFromAttrs attrsC5 = .ok (some { attrs := attrsC5 })
    ∧ lookupAttr attrsC5 "rev" = some (.str revHex40)
    ∧ lookupAttr attrsC5 "ref" = none := by
  have core : ∀ (a2 : Attrs) (res : Input), applyOverridesCheck a2 = .ok res →
      (lookupAttr res.attrs "rev").isSome = true →
      (lookupAttr res.attrs "ref").isSome = true := by
    intro a2 res h hrev
    simp only [applyOverridesCheck, bind, Except.bind] at h
    cases h1 : getRefE a2 with
    | error e => rw [h1] at h; dsimp only at h; cases h
    | ok refv =>
      rw [h1] at h
      dsimp only at h
      cases h2 : getRevE a2 with
      | error e => rw [h2] at h; dsimp only at h; cases h
      | ok revv =>
        rw [h2] at h
        dsimp only at h
        by_cases h3 : (refv.isNone && revv.isSome) = true
        · rw [if_pos h3] at h; cases h
        · rw [if_neg h3] at h
          cases h
          cases hr : refv with
          | some rv =>
            simp only [getRefE, maybeGetStrAttr] at h1
            cases h4 : lookupAttr a2 "ref" with
            | none => rw [h4] at h1; rw [hr] at h1; cases h1
            | some w => simp [h4]
          | none =>
            cases hv : revv with
            | some rvv => rw [hr, hv] at h3; simp at h3
            | none =>
              exfalso
              simp only [getRevE, bind, Except.bind, maybeGetStrAttr] at h2
              cases h5 : lookupAttr a2 "rev" with
              | none => rw [h5] at hrev; cases hrev
              | some w =>
                rw [h5] at h2
                cases w with
                | str ws =>
                  by_cases h6 : isGitHash ws = true
                  · simp [h6, hv] at h2
                  · simp [h6] at h2
                | intv n => cases h2
                | boolv b => cases h2
                | urlv u => cases h2
  refine ⟨?_, rfl, rfl, rfl⟩
  intro i r v res h hrev
  exact core _ res h hrev

/-- The canonical URL of the C6 counterexample: a git URL whose query asks
for `submodules=1`. -/
def urlC6 : ParsedURL :=
  { scheme := "git", base := "example.org/repo", query := [("submodules", "1")] }

/-- The input produced from that URL: `submodules` was promoted to a Boolean
attribute and removed from the stored transport URL. -/
def inputC6 : Input :=
  { attrs := [("type", .str "git"),
              ("submodules", .boolv true),
              ("url", .urlv { scheme := "git", base := "example.org/repo", query := [] })] }

/-- C6 counterexample: `toURL` does not restore the promoted `submodules`
query parameter, so `toURL` composed with `inputFromURL` is not the
identity on this canonical URL. -/
theorem C6_counterexample :
    inputFromURL urlC6 = .ok (some inputC6)
    ∧ toURL inputC6 = .ok { scheme := "git", base := "example.org/repo", query := [] }
    ∧ ({ scheme := "git", base := "example.org/repo", query := [] } : ParsedURL) ≠ urlC6 :=
  ⟨rfl, rfl, by decide⟩

/-! ## Order lemmas for the query maps -/

theorem charListLt_irrefl (l : List Char) : charListLt l l = false := by
  induction l with
  | nil => rfl
  | cons c cs ih => simp [charListLt, ih]

theorem charListLt_trans (a b c : List Char) (h1 : charListLt a b = true)
    (h2 : charListLt b c = true) : charListLt a c = true := by
  induction a generalizing b c with
  | nil =>
    cases b with
    | nil => cases h1
    | cons d ds =>
      cases c with
      | nil => cases h2
      | cons e es => rfl
  | cons x xs ih =>
    cases b with
    | nil => cases h1
    | cons d ds =>
      cases c with
      | nil => cases h2
      | cons e es =>
        simp only [charListLt, Bool.or_eq_true, Bool.and_eq_true,
          decide_eq_true_eq, beq_iff_eq] at h1 h2 ⊢
        rcases h1 with h1 | ⟨rfl, h1⟩
        · rcases h2 with h2 | ⟨rfl, h2⟩
          · exact Or.inl (lt_trans h1 h2)
          · exact Or.inl h1
        · rcases h2 with h2 | ⟨rfl, h2⟩
          · exact Or.inl h2
          · exact Or.inr ⟨rfl, ih ds es h1 h2⟩

theorem charListLt_trichotomy (a b : List Char) :
    charListLt a b = true ∨ a = b ∨ charListLt b a = true := by
  induction a generalizing b with
  | nil =>
    cases b with
    | nil => exact Or.inr (Or.inl rfl)
    | cons d ds => exact Or.inl rfl
  | cons x xs ih =>
    cases b with
    | nil => exact Or.inr (Or.inr rfl)
    | cons d ds =>
      rcases lt_trichotomy x d with h | h | h
      · exact Or.inl (by simp [charListLt, h])
      · subst h
        rcases ih ds with h2 | h2 | h2
        · exact Or.inl (by simp [charListLt, h2])
        · exact Or.inr (Or.inl (by rw [h2]))
        · exact Or.inr (Or.inr (by simp [charListLt, h2]))
      · exact Or.inr (Or.inr (by simp [charListLt, h]))

theorem strLt_irrefl (a : String) : strLt a a = false :=
  charListLt_irrefl a.data

theorem strLt_trans (a b c : String) (h1 : strLt a b = true)
    (h2 : strLt b c = true) : strLt a c = true :=
  charListLt_trans a.data b.data c.data h1 h2

theorem strLt_trichotomy (a b : String) :
    strLt a b = true ∨ a = b ∨ strLt b a = true := by
  rcases charListLt_trichotomy a.data b.data with h | h | h
  · exact Or.inl h
  · exact Or.inr (Or.inl (String.ext h))
  · exact Or.inr (Or.inr h)

theorem strLt_asymm (a b : String) (h : strLt a b = true) : strLt b a = false := by
  by_contra h2
  have h3 : strLt b a = true := by
    cases h4 : strLt b a
    · exact absurd h4 h2
    · rfl
  have := strLt_trans a b a h h3
  rw [strLt_irrefl] at this
  cases this

theorem strLt_ne (a b : String) (h : strLt a b = true) : a ≠ b := by
  rintro rfl
  rw [strLt_irrefl] at h
  cases h

/-! ## Query-map lemmas -/

/-- Sortedness of a query map: keys strictly increase. -/
def QKeysSorted (q : List (String × String)) : Prop :=
  q.Pairwise (fun a b => strLt a.1 b.1 = true)

theorem qLookup_qInsertOrAssign (q : List (String × String)) (k k2 v : String) :
    qLookup (qInsertOrAssign q k v) k2 = if k = k2 then some v else qLookup q k2 := by
  induction q with
  | nil =>
    by_cases h : k = k2 <;> simp [qInsertOrAssign, qLookup, h]
  | cons hd tl ih =>
    obtain ⟨k0, v0⟩ := hd
    cases hlt : strLt k k0 with
    | true =>
      simp only [qInsertOrAssign, hlt, eq_self_iff_true, if_true]
      by_cases h : k = k2
      · simp only [qLookup, if_pos h]
      · simp only [qLookup, if_neg h]
    | false =>
      by_cases heq : k = k0
      · simp only [qInsertOrAssign, hlt, Bool.false_eq_true, if_false, if_pos heq]
        by_cases h : k = k2
        · simp only [qLookup, if_pos h]
        · simp only [qLookup, if_neg h, if_neg (fun hh => h (heq.trans hh))]
      · simp only [qInsertOrAssign, hlt, Bool.false_eq_true, if_false, if_neg heq]
        by_cases h0 : k0 = k2
        · have h : ¬ k = k2 := fun hh => heq (hh.trans h0.symm)
          simp only [qLookup, if_pos h0, if_neg h]
        · by_cases h : k = k2
          · simp only [qLookup, if_neg h0, ih, if_pos h]
          · simp only [qLookup, if_neg h0, ih, if_neg h]

theorem mem_qInsertOrAssign (q : List (String × String)) (k v : String)
    (x : String × String) (h : x ∈ qInsertOrAssign q k v) : x ∈ q ∨ x = (k, v) := by
  induction q with
  | nil =>
    simp only [qInsertOrAssign, List.mem_singleton] at h
    exact Or.inr h
  | cons hd tl ih =>
    obtain ⟨k0, v0⟩ := hd
    cases hlt : strLt k k0 with
    | true =>
      simp only [qInsertOrAssign, hlt, if_true, List.mem_cons] at h
      rcases h with h | h | h
      · exact Or.inr h
      · exact Or.inl (by simp [h])
      · exact Or.inl (List.mem_cons_of_mem _ h)
    | false =>
      by_cases heq : k = k0
      · subst heq
        simp only [qInsertOrAssign, hlt, Bool.false_eq_true, if_false,
          eq_self_iff_true, if_true, List.mem_cons] at h
        rcases h with h | h
        · exact Or.inr h
        · exact Or.inl (List.mem_cons_of_mem _ h)
      · simp only [qInsertOrAssign, hlt, heq, Bool.false_eq_true, if_false,
          List.mem_cons] at h
        rcases h with h | h
        · exact Or.inl (by simp [h])
        · rcases ih h with h2 | h2
          · exact Or.inl (List.mem_cons_of_mem _ h2)
          · exact Or.inr h2

theorem pairwise_qInsertOrAssign (q : List (String × String)) (k v : String)
    (h : QKeysSorted q) : QKeysSorted (qInsertOrAssign q k v) := by
  induction q with
  | nil => simp [qInsertOrAssign, QKeysSorted]
  | cons hd tl ih =>
    obtain ⟨k0, v0⟩ := hd
    rw [QKeysSorted, List.pairwise_cons] at h
    obtain ⟨hhead, htail⟩ := h
    cases hlt : strLt k k0 with
    | true =>
      simp only [qInsertOrAssign, hlt, if_true]
      rw [QKeysSorted, List.pairwise_cons]
      constructor
      · intro x hx
        rcases List.mem_cons.mp hx with rfl | hx
        · exact hlt
        · exact strLt_trans k k0 x.1 hlt (hhead x hx)
      · rw [List.pairwise_cons]
        exact ⟨hhead, htail⟩
    | false =>
      by_cases heq : k = k0
      · subst heq
        simp only [qInsertOrAssign, hlt, Bool.false_eq_true, if_false,
          eq_self_iff_true, if_true]
        rw [QKeysSorted, List.pairwise_cons]
        exact ⟨hhead, htail⟩
      · simp only [qInsertOrAssign, hlt, heq, Bool.false_eq_true, if_false]
        rw [QKeysSorted, List.pairwise_cons]
        constructor
        · intro x hx
          rcases mem_qInsertOrAssign tl k v x hx with hx2 | hx2
          · exact hhead x hx2
          · rw [hx2]
            rcases strLt_trichotomy k k0 with h3 | h3 | h3
            · rw [h3] at hlt; cases hlt
            · exact absurd h3 heq
            · exact h3
        · exact ih htail

theorem qLookup_eq_none (q : List (String × String)) (k : String)
    (h : ∀ x ∈ q, x.1 ≠ k) : qLookup q k = none := by
  induction q with
  | nil => rfl
  | cons hd tl ih =>
    obtain ⟨k0, v0⟩ := hd
    have h0 : k0 ≠ k := h (k0, v0) (List.mem_cons_self _ _)
    simp only [qLookup, if_neg h0]
    exact ih fun x hx => h x (List.mem_cons_of_mem _ hx)

theorem qLookup_filter (q : List (String × String)) (p : String × String → Bool)
    (k : String) (h : QKeysSorted q) :
    qLookup (q.filter p) k =
      match qLookup q k with
      | some v => if p (k, v) then some v else none
      | none => none := by
  induction q with
  | nil => simp [qLookup]
  | cons hd tl ih =>
    obtain ⟨k0, v0⟩ := hd
    rw [QKeysSorted, List.pairwise_cons] at h
    obtain ⟨hhead, htail⟩ := h
    by_cases h0 : k0 = k
    · subst h0
      have htl : qLookup tl k0 = none :=
        qLookup_eq_none tl k0 fun x hx => (strLt_ne k0 x.1 (hhead x hx)).symm
      have hftl : qLookup (tl.filter p) k0 = none := by
        refine qLookup_eq_none _ _ fun x hx => ?_
        exact (strLt_ne k0 x.1 (hhead x (List.mem_of_mem_filter hx))).symm
      cases hp : p (k0, v0) with
      | true => simp [List.filter, hp, qLookup]
      | false => simp [List.filter, hp, qLookup, hftl]
    · cases hp : p (k0, v0) with
      | true => simp [List.filter, hp, qLookup, h0, ih htail]
      | false => simp [List.filter, hp, qLookup, h0, ih htail]

theorem qext (q1 q2 : List (String × String)) (h1 : QKeysSorted q1)
    (h2 : QKeysSorted q2) (h : ∀ k, qLookup q1 k = qLookup q2 k) : q1 = q2 := by
  induction q1 generalizing q2 with
  | nil =>
    cases q2 with
    | nil => rfl
    | cons hd2 tl2 =>
      obtain ⟨k2, v2⟩ := hd2
      have := h k2
      simp [qLookup] at this
  | cons hd1 tl1 ih =>
    obtain ⟨k1, v1⟩ := hd1
    rw [QKeysSorted, List.pairwise_cons] at h1
    obtain ⟨hhead1, htail1⟩ := h1
    cases q2 with
    | nil =>
      have := h k1
      simp [qLookup] at this
    | cons hd2 tl2 =>
      obtain ⟨k2, v2⟩ := hd2
      rw [QKeysSorted, List.pairwise_cons] at h2
      obtain ⟨hhead2, htail2⟩ := h2
      have hk : k1 = k2 := by
        rcases strLt_trichotomy k1 k2 with h3 | h3 | h3
        · exfalso
          have hl := h k1
          have htl2 : qLookup tl2 k1 = none := by
            refine qLookup_eq_none _ _ fun x hx => ?_
            exact (strLt_ne k1 x.1 (strLt_trans k1 k2 x.1 h3 (hhead2 x hx))).symm
          simp [qLookup, (strLt_ne k1 k2 h3).symm, htl2] at hl
        · exact h3
        · exfalso
          have hl := h k2
          have htl1 : qLookup tl1 k2 = none := by
            refine qLookup_eq_none _ _ fun x hx => ?_
            exact (strLt_ne k2 x.1 (strLt_trans k2 k1 x.1 h3 (hhead1 x hx))).symm
          simp [qLookup, (strLt_ne k2 k1 h3).symm, htl1] at hl
      subst hk
      have hv : v1 = v2 := by
        have := h k1
        simpa [qLookup] using this
      subst hv
      have htls : ∀ k, qLookup tl1 k = qLookup tl2 k := by
        intro k
        by_cases hkk : k1 = k
        · subst hkk
          rw [qLookup_eq_none tl1 k1 fun x hx => (strLt_ne k1 x.1 (hhead1 x hx)).symm,
            qLookup_eq_none tl2 k1 fun x hx => (strLt_ne k1 x.1 (hhead2 x hx)).symm]
        · have := h k
          simpa [qLookup, hkk] using this
      rw [ih tl2 htail1 htail2 htls]

/-! ## Lemmas about the promotion loop of inputFromURL -/

/-- The query parameter names `inputFromURL` promotes to attributes. -/
def isPromotedName (k : String) : Bool :=
  k == "rev" || k == "ref" || k == "shallow" || k == "submodules"

/-- The attribute value a promoted parameter receives. -/
def promoteVal (k v : String) : AttrVal :=
  if k == "rev" || k == "ref" then .str v else .boolv (v == "1")

theorem qEmplace_append (q2 : List (String × String)) (k v : String)
    (h : ∀ x ∈ q2, strLt x.1 k = true) : qEmplace q2 k v = q2 ++ [(k, v)] := by
  induction q2 with
  | nil => rfl
  | cons hd tl ih =>
    obtain ⟨k0, v0⟩ := hd
    have h0 : strLt k0 k = true := h (k0, v0) (List.mem_cons_self _ _)
    have hlt : strLt k k0 = false := strLt_asymm k0 k h0
    have hne : ¬ k = k0 := fun hh => strLt_ne k0 k h0 hh.symm
    simp only [qEmplace, hlt, Bool.false_eq_true, if_false, if_neg hne,
      List.cons_append, List.cons.injEq, true_and]
    exact ih fun x hx => h x (List.mem_cons_of_mem _ hx)

theorem foldPromote_snd (q : List (String × String)) (acc : Attrs)
    (q2 : List (String × String))
    (hord : ∀ x ∈ q2, ∀ y ∈ q, strLt x.1 y.1 = true)
    (hsorted : q.Pairwise fun a b => strLt a.1 b.1 = true) :
    (q.foldl promoteQueryStep (acc, q2)).2
      = q2 ++ q.filter (fun kv => !(isPromotedName kv.1)) := by
  induction q generalizing acc q2 with
  | nil => simp
  | cons kv rest ih =>
    obtain ⟨k, v⟩ := kv
    rw [List.pairwise_cons] at hsorted
    obtain ⟨hhead, htail⟩ := hsorted
    rw [List.foldl_cons]
    cases hp1 : (k == "rev" || k == "ref") with
    | true =>
      have hpn : isPromotedName k = true := by
        simp only [isPromotedName]
        rcases Bool.or_eq_true_iff.mp hp1 with h | h <;> simp [h]
      rw [show promoteQueryStep (acc, q2) (k, v)
          = (attrsEmplace acc k (.str v), q2) by simp [promoteQueryStep, hp1]]
      rw [ih _ _ (fun x hx y hy => hord x hx y (List.mem_cons_of_mem _ hy)) htail]
      simp [List.filter, hpn]
    | false =>
      cases hp2 : (k == "shallow" || k == "submodules") with
      | true =>
        have hpn : isPromotedName k = true := by
          simp only [isPromotedName]
          rcases Bool.or_eq_true_iff.mp hp2 with h | h <;> simp [h]
        rw [show promoteQueryStep (acc, q2) (k, v)
            = (attrsEmplace acc k (.boolv (v == "1")), q2) by
          simp [promoteQueryStep, hp1, hp2]]
        rw [ih _ _ (fun x hx y hy => hord x hx y (List.mem_cons_of_mem _ hy)) htail]
        simp [List.filter, hpn]
      | false =>
        have hpn : isPromotedName k = false := by
          rcases Bool.or_eq_false_iff.mp hp1 with ⟨ha, hb⟩
          rcases Bool.or_eq_false_iff.mp hp2 with ⟨hc, hd⟩
          simp [isPromotedName, ha, hb, hc, hd]
        rw [show promoteQueryStep (acc, q2) (k, v)
            = (acc, qEmplace q2 k v) by simp [promoteQueryStep, hp1, hp2]]
        rw [qEmplace_append q2 k v (fun x hx => hord x hx (k, v) (List.mem_cons_self _ _))]
        rw [ih _ _ ?_ htail]
        · simp [List.filter, hpn]
        · intro x hx y hy
          rcases List.mem_append.mp hx with hx2 | hx2
          · exact hord x hx2 y (List.mem_cons_of_mem _ hy)
          · rw [List.mem_singleton.mp hx2]
            exact hhead y hy

theorem lookupAttr_attrsEmplace_ne (a : Attrs) (k q : String) (v : AttrVal)
    (h : k ≠ q) : lookupAttr (attrsEmplace a k v) q = lookupAttr a q := by
  unfold attrsEmplace
  cases hl : lookupAttr a k
  · rw [lookupAttr_append]
    cases hq : lookupAttr a q
    · simp [lookupAttr, h]
    · simp
  · rfl

theorem lookupAttr_attrsEmplace_self (a : Attrs) (k : String) (v : AttrVal) :
    lookupAttr (attrsEmplace a k v) k = some ((lookupAttr a k).getD v) := by
  unfold attrsEmplace
  cases hl : lookupAttr a k
  · rw [lookupAttr_append, hl]
    simp [lookupAttr]
  · rw [hl]
    simp

theorem lookupAttr_some_mem (a : Attrs) (q : String) (v : AttrVal)
    (h : lookupAttr a q = some v) : (q, v) ∈ a := by
  induction a with
  | nil => cases h
  | cons hd tl ih =>
    obtain ⟨k0, v0⟩ := hd
    by_cases h0 : k0 = q
    · subst h0
      rw [lookupAttr, if_pos rfl] at h
      cases h
      exact List.mem_cons_self _ _
    · simp only [lookupAttr, if_neg h0] at h
      exact List.mem_cons_of_mem _ (ih h)

theorem mem_attrsEmplace (a : Attrs) (k : String) (v : AttrVal) (x : String × AttrVal)
    (h : x ∈ attrsEmplace a k v) : x ∈ a ∨ x = (k, v) := by
  unfold attrsEmplace at h
  cases hl : lookupAttr a k <;> rw [hl] at h
  · rcases List.mem_append.mp h with h2 | h2
    · exact Or.inl h2
    · exact Or.inr (List.mem_singleton.mp h2)
  · exact Or.inl h

theorem foldPromote_fst_lookup (q : List (String × String)) (acc : Attrs)
    (q2 : List (String × String)) (k : String) :
    lookupAttr (q.foldl promoteQueryStep (acc, q2)).1 k =
      match lookupAttr acc k with
      | some v => some v
      | none => if isPromotedName k then (qLookup q k).map (promoteVal k) else none := by
  induction q generalizing acc q2 with
  | nil =>
    cases hl : lookupAttr acc k
    · simp [qLookup, hl]
    · simp [hl]
  | cons kv rest ih =>
    obtain ⟨k0, v0⟩ := kv
    rw [List.foldl_cons]
    cases hp1 : (k0 == "rev" || k0 == "ref") with
    | true =>
      have hpn : isPromotedName k0 = true := by
        simp only [isPromotedName]
        rcases Bool.or_eq_true_iff.mp hp1 with h | h <;> simp [h]
      have hpv : promoteVal k0 v0 = .str v0 := by simp [promoteVal, hp1]
      rw [show promoteQueryStep (acc, q2) (k0, v0) = (attrsEmplace acc k0 (.str v0), q2) by
        simp [promoteQueryStep, hp1]]
      rw [ih]
      by_cases hk : k0 = k
      · subst hk
        rw [lookupAttr_attrsEmplace_self]
        cases ha : lookupAttr acc k0
        · simp [qLookup, hpn, hpv]
        · simp
      · rw [lookupAttr_attrsEmplace_ne acc k0 k _ hk]
        cases ha : lookupAttr acc k
        · simp [qLookup, hk]
        · simp
    | false =>
      cases hp2 : (k0 == "shallow" || k0 == "submodules") with
      | true =>
        have hpn : isPromotedName k0 = true := by
          simp only [isPromotedName]
          rcases Bool.or_eq_true_iff.mp hp2 with h | h <;> simp [h]
        have hpv : promoteVal k0 v0 = .boolv (v0 == "1") := by simp [promoteVal, hp1]
        rw [show promoteQueryStep (acc, q2) (k0, v0)
            = (attrsEmplace acc k0 (.boolv (v0 == "1")), q2) by
          simp [promoteQueryStep, hp1, hp2]]
        rw [ih]
        by_cases hk : k0 = k
        · subst hk
          rw [lookupAttr_attrsEmplace_self]
          cases ha : lookupAttr acc k0
          · simp [qLookup, hpn, hpv]
          · simp
        · rw [lookupAttr_attrsEmplace_ne acc k0 k _ hk]
          cases ha : lookupAttr acc k
          · simp [qLookup, hk]
          · simp
      | false =>
        have hpn : isPromotedName k0 = false := by
          rcases Bool.or_eq_false_iff.mp hp1 with ⟨ha, hb⟩
          rcases Bool.or_eq_false_iff.mp hp2 with ⟨hc, hd⟩
          simp [isPromotedName, ha, hb, hc, hd]
        rw [show promoteQueryStep (acc, q2) (k0, v0) = (acc, qEmplace q2 k0 v0) by
          simp [promoteQueryStep, hp1, hp2]]
        rw [ih]
        by_cases hk : k0 = k
        · subst hk
          cases ha : lookupAttr acc k0
          · simp [qLookup, hpn]
          · simp
        · cases ha : lookupAttr acc k
          · simp [qLookup, hk]
          · simp

theorem foldPromote_fst_mem (q : List (String × String)) (acc : Attrs)
    (q2 : List (String × String)) (x : String × AttrVal)
    (h : x ∈ (q.foldl promoteQueryStep (acc, q2)).1) :
    x ∈ acc ∨ isPromotedName x.1 = true := by
  induction q generalizing acc q2 with
  | nil => exact Or.inl h
  | cons kv rest ih =>
    obtain ⟨k0, v0⟩ := kv
    rw [List.foldl_cons] at h
    cases hp1 : (k0 == "rev" || k0 == "ref") with
    | true =>
      rw [show promoteQueryStep (acc, q2) (k0, v0) = (attrsEmplace acc k0 (.str v0), q2) by
        simp [promoteQueryStep, hp1]] at h
      rcases ih _ _ h with h2 | h2
      · rcases mem_attrsEmplace acc k0 (.str v0) x h2 with h3 | h3
        · exact Or.inl h3
        · refine Or.inr ?_
          rw [h3]
          simp only [isPromotedName]
          rcases Bool.or_eq_true_iff.mp hp1 with hh | hh <;> simp [hh]
      · exact Or.inr h2
    | false =>
      cases hp2 : (k0 == "shallow" || k0 == "submodules") with
      | true =>
        rw [show promoteQueryStep (acc, q2) (k0, v0)
            = (attrsEmplace acc k0 (.boolv (v0 == "1")), q2) by
          simp [promoteQueryStep, hp1, hp2]] at h
        rcases ih _ _ h with h2 | h2
        · rcases mem_attrsEmplace acc k0 (.boolv (v0 == "1")) x h2 with h3 | h3
          · exact Or.inl h3
          · refine Or.inr ?_
            rw [h3]
            simp only [isPromotedName]
            rcases Bool.or_eq_true_iff.mp hp2 with hh | hh <;> simp [hh]
        · exact Or.inr h2
      | false =>
        rw [show promoteQueryStep (acc, q2) (k0, v0) = (acc, qEmplace q2 k0 v0) by
          simp [promoteQueryStep, hp1, hp2]] at h
        exact ih _ _ h

/-- Re-insertion of one promoted parameter by `toURL`, as a function of the
original query: insert the original value back when the parameter was
present. -/
def condInsertKey (key : String) (qq q3 : List (String × String)) :
    List (String × String) :=
  match qLookup qq key with
  | some v => qInsertOrAssign q3 key v
  | none => q3

/-- Re-insertion of the `shallow` parameter by `toURL`: when the original
query carried `shallow`, the literal `"1"` is inserted. -/
def condInsertShallow (qq q3 : List (String × String)) : List (String × String) :=
  match qLookup qq "shallow" with
  | some _ => qInsertOrAssign q3 "shallow" "1"
  | none => q3

/-- The query `toURL` rebuilds from a canonical query `qq`: the retained
parameters plus the re-inserted `rev`, `ref` and `shallow`. -/
def restoredQuery (qq : List (String × String)) : List (String × String) :=
  condInsertShallow qq
    (condInsertKey "ref" qq
      (condInsertKey "rev" qq
        (qq.filter fun kv => !(isPromotedName kv.1))))

theorem qLookup_condInsertKey (key : String) (qq q3 : List (String × String))
    (k : String) (h3 : qLookup q3 key = none) :
    qLookup (condInsertKey key qq q3) k
      = if key = k then qLookup qq key else qLookup q3 k := by
  unfold condInsertKey
  cases ho : qLookup qq key with
  | some v => rw [qLookup_qInsertOrAssign]
  | none =>
    by_cases hk : key = k
    · subst hk
      rw [if_pos rfl, h3]
    · rw [if_neg hk]

theorem qLookup_condInsertShallow (qq q3 : List (String × String)) (k : String)
    (h3 : qLookup q3 "shallow" = none)
    (hsh : ∀ v, qLookup qq "shallow" = some v → v = "1") :
    qLookup (condInsertShallow qq q3) k
      = if "shallow" = k then qLookup qq "shallow" else qLookup q3 k := by
  unfold condInsertShallow
  cases ho : qLookup qq "shallow" with
  | some v =>
    rw [qLookup_qInsertOrAssign, hsh v ho]
  | none =>
    by_cases hk : "shallow" = k
    · rw [if_pos hk, ← hk, h3]
    · rw [if_neg hk]

theorem sorted_condInsertKey (key : String) (qq q3 : List (String × String))
    (h : QKeysSorted q3) : QKeysSorted (condInsertKey key qq q3) := by
  unfold condInsertKey
  cases qLookup qq key
  · exact h
  · exact pairwise_qInsertOrAssign _ _ _ h

theorem sorted_condInsertShallow (qq q3 : List (String × String))
    (h : QKeysSorted q3) : QKeysSorted (condInsertShallow qq q3) := by
  unfold condInsertShallow
  cases qLookup qq "shallow"
  · exact h
  · exact pairwise_qInsertOrAssign _ _ _ h

theorem filterPromoted_lookup_promoted (qq : List (String × String)) (k : String)
    (hs : QKeysSorted qq) (hk : isPromotedName k = true) :
    qLookup (qq.filter fun kv => !(isPromotedName kv.1)) k = none := by
  rw [qLookup_filter _ _ _ hs]
  cases hq : qLookup qq k
  · rfl
  · simp [hk]

theorem filterPromoted_lookup_other (qq : List (String × String)) (k : String)
    (hs : QKeysSorted qq) (hk : isPromotedName k = false) :
    qLookup (qq.filter fun kv => !(isPromotedName kv.1)) k = qLookup qq k := by
  rw [qLookup_filter _ _ _ hs]
  cases hq : qLookup qq k
  · rfl
  · simp [hk]

theorem restoredQuery_eq (qq : List (String × String)) (hs : QKeysSorted qq)
    (hsub : qLookup qq "submodules" = none)
    (hsh : ∀ v, qLookup qq "shallow" = some v → v = "1") :
    restoredQuery qq = qq := by
  have hf : QKeysSorted (qq.filter fun kv => !(isPromotedName kv.1)) :=
    List.Pairwise.filter _ hs
  have hrevnone : qLookup (qq.filter fun kv => !(isPromotedName kv.1)) "rev" = none :=
    filterPromoted_lookup_promoted qq "rev" hs (by rfl)
  have hrefnone :
      qLookup (condInsertKey "rev" qq (qq.filter fun kv => !(isPromotedName kv.1))) "ref"
        = none := by
    rw [qLookup_condInsertKey _ _ _ _ hrevnone, if_neg (by decide)]
    exact filterPromoted_lookup_promoted qq "ref" hs (by rfl)
  have hshnone :
      qLookup (condInsertKey "ref" qq
        (condInsertKey "rev" qq (qq.filter fun kv => !(isPromotedName kv.1)))) "shallow"
        = none := by
    rw [qLookup_condInsertKey _ _ _ _ hrefnone, if_neg (by decide),
      qLookup_condInsertKey _ _ _ _ hrevnone, if_neg (by decide)]
    exact filterPromoted_lookup_promoted qq "shallow" hs (by rfl)
  apply qext _ _ ?_ hs
  · intro k
    rw [restoredQuery, qLookup_condInsertShallow _ _ _ hshnone hsh]
    by_cases k3 : "shallow" = k
    · rw [if_pos k3, k3]
    · rw [if_neg k3, qLookup_condInsertKey _ _ _ _ hrefnone]
      by_cases k2 : "ref" = k
      · rw [if_pos k2, k2]
      · rw [if_neg k2, qLookup_condInsertKey _ _ _ _ hrevnone]
        by_cases k1 : "rev" = k
        · rw [if_pos k1, k1]
        · rw [if_neg k1]
          by_cases k4 : "submodules" = k
          · rw [filterPromoted_lookup_promoted qq k hs (by rw [← k4]; rfl), ← k4, hsub]
          · refine filterPromoted_lookup_other qq k hs ?_
            have e1 : k ≠ "rev" := fun hh => k1 hh.symm
            have e2 : k ≠ "ref" := fun hh => k2 hh.symm
            have e3 : k ≠ "shallow" := fun hh => k3 hh.symm
            have e4 : k ≠ "submodules" := fun hh => k4 hh.symm
            simp [isPromotedName, e1, e2, e3, e4]
  · exact sorted_condInsertShallow _ _ (sorted_condInsertKey _ _ _
      (sorted_condInsertKey _ _ _ hf))

/-- The stripped scheme computed by `inputFromURL`. -/
def urlScheme2 (u : ParsedURL) : String :=
  if leadingMatch ("git+".data) u.scheme.data then String.mk (u.scheme.data.drop 4)
  else u.scheme

/-- The promotion fold of `inputFromURL` applied to a URL's query. -/
def urlFold (u : ParsedURL) : Attrs × List (String × String) :=
  u.query.foldl promoteQueryStep (attrsEmplace [] "type" (AttrVal.str "git"), [])

/-- The transport URL stored in the `url` attribute by `inputFromURL`. -/
def urlStored (u : ParsedURL) : ParsedURL :=
  { scheme := urlScheme2 u, base := u.base, query := (urlFold u).2 }

/-- The attribute set built by `inputFromURL`. -/
def urlAttrs (u : ParsedURL) : Attrs :=
  attrsEmplace (urlFold u).1 "url" (AttrVal.urlv (urlStored u))

theorem inputFromURL_eq (u : ParsedURL) :
    inputFromURL u =
      if !(gitUrlSchemes.contains u.scheme) then .ok none
      else inputFromAttrs (urlAttrs u) := rfl

theorem urlFold_fst_url (u : ParsedURL) : lookupAttr (urlFold u).1 "url" = none := by
  rw [urlFold, foldPromote_fst_lookup]
  rfl

theorem urlAttrs_url (u : ParsedURL) :
    lookupAttr (urlAttrs u) "url" = some (.urlv (urlStored u)) := by
  rw [urlAttrs, lookupAttr_attrsEmplace_self, urlFold_fst_url]
  rfl

theorem urlAttrs_ne (u : ParsedURL) (k : String) (h : k ≠ "url") :
    lookupAttr (urlAttrs u) k = lookupAttr (urlFold u).1 k :=
  lookupAttr_attrsEmplace_ne _ _ _ _ fun hh => h hh.symm

theorem urlAttrs_type (u : ParsedURL) :
    lookupAttr (urlAttrs u) "type" = some (.str "git") := by
  rw [urlAttrs_ne u "type" (by decide), urlFold, foldPromote_fst_lookup]
  rfl

theorem urlAttrs_rev (u : ParsedURL) :
    lookupAttr (urlAttrs u) "rev"
      = (qLookup u.query "rev").map (fun v => AttrVal.str v) := by
  rw [urlAttrs_ne u "rev" (by decide), urlFold, foldPromote_fst_lookup]
  cases qLookup u.query "rev" <;> rfl

theorem urlAttrs_ref (u : ParsedURL) :
    lookupAttr (urlAttrs u) "ref"
      = (qLookup u.query "ref").map (fun v => AttrVal.str v) := by
  rw [urlAttrs_ne u "ref" (by decide), urlFold, foldPromote_fst_lookup]
  cases qLookup u.query "ref" <;> rfl

theorem urlAttrs_shallow (u : ParsedURL) :
    lookupAttr (urlAttrs u) "shallow"
      = (qLookup u.query "shallow").map (fun v => AttrVal.boolv (v == "1")) := by
  rw [urlAttrs_ne u "shallow" (by decide), urlFold, foldPromote_fst_lookup]
  cases qLookup u.query "shallow" <;> rfl

theorem urlAttrs_submodules (u : ParsedURL) :
    lookupAttr (urlAttrs u) "submodules"
      = (qLookup u.query "submodules").map (fun v => AttrVal.boolv (v == "1")) := by
  rw [urlAttrs_ne u "submodules" (by decide), urlFold, foldPromote_fst_lookup]
  cases qLookup u.query "submodules" <;> rfl

theorem urlAttrs_allRefs (u : ParsedURL) :
    lookupAttr (urlAttrs u) "allRefs" = none := by
  rw [urlAttrs_ne u "allRefs" (by decide), urlFold, foldPromote_fst_lookup]
  rfl

theorem urlAttrs_getUrl (u : ParsedURL) :
    getUrlAttr (urlAttrs u) = .ok (urlStored u) := by
  simp only [getUrlAttr, urlAttrs_url]

theorem urlAttrs_getRev (u : ParsedURL)
    (hrev : ∀ v, qLookup u.query "rev" = some v → isGitHash v = true) :
    getRevE (urlAttrs u) = .ok (qLookup u.query "rev") := by
  simp only [getRevE, bind, Except.bind, maybeGetStrAttr, urlAttrs_rev]
  cases hq : qLookup u.query "rev" with
  | none => rfl
  | some rv => simp [hrev rv hq]

theorem urlAttrs_getRef (u : ParsedURL) :
    getRefE (urlAttrs u) = .ok (qLookup u.query "ref") := by
  simp only [getRefE, maybeGetStrAttr, urlAttrs_ref]
  cases qLookup u.query "ref" <;> rfl

theorem urlAttrs_getShallow (u : ParsedURL) :
    maybeGetBoolAttr (urlAttrs u) "shallow"
      = .ok ((qLookup u.query "shallow").map (fun v => v == "1")) := by
  simp only [maybeGetBoolAttr, urlAttrs_shallow]
  cases qLookup u.query "shallow" <;> rfl

theorem urlAttrs_getSubmodules (u : ParsedURL)
    (hsub : qLookup u.query "submodules" = none) :
    maybeGetBoolAttr (urlAttrs u) "submodules" = .ok none := by
  simp only [maybeGetBoolAttr, urlAttrs_submodules, hsub]
  rfl

theorem urlAttrs_getAllRefs (u : ParsedURL) :
    maybeGetBoolAttr (urlAttrs u) "allRefs" = .ok none := by
  simp only [maybeGetBoolAttr, urlAttrs_allRefs]

theorem promoted_allowed (k : String) (h : isPromotedName k = true) :
    allowedGitAttrNames.contains k = true := by
  by_cases h1 : k = "rev"
  · rw [h1]; decide
  by_cases h2 : k = "ref"
  · rw [h2]; decide
  by_cases h3 : k = "shallow"
  · rw [h3]; decide
  by_cases h4 : k = "submodules"
  · rw [h4]; decide
  exfalso
  simp [isPromotedName, h1, h2, h3, h4] at h

theorem urlAttrs_allowed (u : ParsedURL) :
    (urlAttrs u).any (fun kv => !(allowedGitAttrNames.contains kv.1)) = false := by
  rw [List.any_eq_false]
  intro x hx
  rcases mem_attrsEmplace _ _ _ x hx with h2 | h2
  · rcases foldPromote_fst_mem _ _ _ x h2 with h3 | h3
    · have h4 : x = ("type", AttrVal.str "git") := by
        have h5 : x ∈ attrsEmplace [] "type" (AttrVal.str "git") := h3
        simpa [attrsEmplace, lookupAttr] using h5
      rw [h4]
      decide
    · have hm : x.1 ∈ allowedGitAttrNames :=
        List.mem_of_elem_eq_true (promoted_allowed x.1 h3)
      simp [hm]
  · rw [show x.1 = "url" by rw [h2]]
    decide

theorem urlAttrs_accepted (u : ParsedURL)
    (hsub : qLookup u.query "submodules" = none)
    (href : ∀ v, qLookup u.query "ref" = some v → badGitRef v = false) :
    inputFromAttrs (urlAttrs u) = .ok (some { attrs := urlAttrs u }) := by
  have hT : maybeGetStrAttr (urlAttrs u) "type" = .ok (some "git") := by
    simp only [maybeGetStrAttr, urlAttrs_type u]
  have hMRef : maybeGetStrAttr (urlAttrs u) "ref" = .ok (qLookup u.query "ref") := by
    simp only [maybeGetStrAttr, urlAttrs_ref]
    cases qLookup u.query "ref" <;> rfl
  rw [inputFromAttrs]
  rw [hT]
  simp only [Except.toOption, Option.join, bind, Except.bind]
  rw [if_neg (by decide), if_neg (by rw [urlAttrs_allowed u]; exact fun hh => Bool.true_eq_false ▸ hh.symm ▸ rfl)]
  rw [urlAttrs_getUrl u]
  rw [urlAttrs_getShallow u, urlAttrs_getSubmodules u hsub, urlAttrs_getAllRefs u]
  rw [hMRef]
  cases hq : qLookup u.query "ref" with
  | none => rfl
  | some rf =>
    simp [href rf hq, pure, Except.pure]

theorem urlScheme2_restore (u : ParsedURL) (hscheme : u.scheme ∈ gitUrlSchemes) :
    (if urlScheme2 u != "git" then "git+" ++ urlScheme2 u else urlScheme2 u)
      = u.scheme := by
  simp only [gitUrlSchemes, List.mem_cons, List.not_mem_nil, or_false] at hscheme
  rcases hscheme with h | h | h | h | h <;> simp only [urlScheme2] <;> rw [h] <;> decide

theorem urlAttrs_toURL (u : ParsedURL)
    (hscheme : u.scheme ∈ gitUrlSchemes)
    (hsorted : QKeysSorted u.query)
    (hsub : qLookup u.query "submodules" = none)
    (hshallow : ∀ v, qLookup u.query "shallow" = some v → v = "1")
    (hrev : ∀ v, qLookup u.query "rev" = some v → isGitHash v = true) :
    toURL { attrs := urlAttrs u } = .ok u := by
  have hF2 : (urlFold u).2 = u.query.filter (fun kv => !(isPromotedName kv.1)) := by
    have := foldPromote_snd u.query (attrsEmplace [] "type" (AttrVal.str "git")) []
      (by intro x hx; cases hx) hsorted
    simpa [urlFold] using this
  have hstep : (if (urlStored u).scheme != "git"
      then { urlStored u with scheme := "git+" ++ (urlStored u).scheme }
      else urlStored u)
      = { scheme := u.scheme, base := u.base, query := (urlFold u).2 } := by
    have happ := apply_ite
      (fun sc => ({ scheme := sc, base := u.base, query := (urlFold u).2 } : ParsedURL))
      ((urlScheme2 u != "git") = true) ("git+" ++ urlScheme2 u) (urlScheme2 u)
    calc (if (urlStored u).scheme != "git"
          then { urlStored u with scheme := "git+" ++ (urlStored u).scheme }
          else urlStored u)
        = (if (urlScheme2 u != "git") = true
            then ({ scheme := "git+" ++ urlScheme2 u, base := u.base,
                    query := (urlFold u).2 } : ParsedURL)
            else { scheme := urlScheme2 u, base := u.base, query := (urlFold u).2 }) := rfl
      _ = { scheme := (if urlScheme2 u != "git" then "git+" ++ urlScheme2 u
              else urlScheme2 u), base := u.base, query := (urlFold u).2 } := happ.symm
      _ = { scheme := u.scheme, base := u.base, query := (urlFold u).2 } := by
          rw [urlScheme2_restore u hscheme]
  simp only [toURL, bind, Except.bind, urlAttrs_getUrl, urlAttrs_getRev u hrev,
    urlAttrs_getRef, urlAttrs_getShallow]
  rw [hstep, hF2]
  rcases hRv : qLookup u.query "rev" with _ | rv <;>
    rcases hRf : qLookup u.query "ref" with _ | rf <;>
      rcases hSh : qLookup u.query "shallow" with _ | sv <;>
        simp only [Option.map_none', Option.map_some', Option.getD_none,
          Option.getD_some, pure, Except.pure, Bool.false_eq_true, if_false]
  · rw [← show restoredQuery u.query
        = u.query.filter (fun kv => !(isPromotedName kv.1)) by
      rw [restoredQuery, condInsertKey, condInsertKey, condInsertShallow, hRv, hRf, hSh],
      restoredQuery_eq u.query hsorted hsub hshallow]
  · rw [hshallow sv hSh]
    simp only [show (("1" : String) == "1") = true from rfl, if_true]
    rw [← show restoredQuery u.query
        = qInsertOrAssign (u.query.filter fun kv => !(isPromotedName kv.1))
            "shallow" "1" by
      rw [restoredQuery, condInsertKey, condInsertKey, condInsertShallow, hRv, hRf, hSh],
      restoredQuery_eq u.query hsorted hsub hshallow]
  · rw [← show restoredQuery u.query
        = qInsertOrAssign (u.query.filter fun kv => !(isPromotedName kv.1))
            "ref" rf by
      rw [restoredQuery, condInsertKey, condInsertKey, condInsertShallow, hRv, hRf, hSh],
      restoredQuery_eq u.query hsorted hsub hshallow]
  · rw [hshallow sv hSh]
    simp only [show (("1" : String) == "1") = true from rfl, if_true]
    rw [← show restoredQuery u.query
        = qInsertOrAssign (qInsertOrAssign
            (u.query.filter fun kv => !(isPromotedName kv.1)) "ref" rf)
            "shallow" "1" by
      rw [restoredQuery, condInsertKey, condInsertKey, condInsertShallow, hRv, hRf, hSh],
      restoredQuery_eq u.query hsorted hsub hshallow]
  · rw [← show restoredQuery u.query
        = qInsertOrAssign (u.query.filter fun kv => !(isPromotedName kv.1))
            "rev" rv by
      rw [restoredQuery, condInsertKey, condInsertKey, condInsertShallow, hRv, hRf, hSh],
      restoredQuery_eq u.query hsorted hsub hshallow]
  · rw [hshallow sv hSh]
    simp only [show (("1" : String) == "1") = true from rfl, if_true]
    rw [← show restoredQuery u.query
        = qInsertOrAssign (qInsertOrAssign
            (u.query.filter fun kv => !(isPromotedName kv.1)) "rev" rv)
            "shallow" "1" by
      rw [restoredQuery, condInsertKey, condInsertKey, condInsertShallow, hRv, hRf, hSh],
      restoredQuery_eq u.query hsorted hsub hshallow]
  · rw [← show restoredQuery u.query
        = qInsertOrAssign (qInsertOrAssign
            (u.query.filter fun kv => !(isPromotedName kv.1)) "rev" rv)
            "ref" rf by
      rw [restoredQuery, condInsertKey, condInsertKey, condInsertShallow, hRv, hRf, hSh],
      restoredQuery_eq u.query hsorted hsub hshallow]
  · rw [hshallow sv hSh]
    simp only [show (("1" : String) == "1") = true from rfl, if_true]
    rw [← show restoredQuery u.query
        = qInsertOrAssign (qInsertOrAssign (qInsertOrAssign
            (u.query.filter fun kv => !(isPromotedName kv.1)) "rev" rv)
            "ref" rf) "shallow" "1" by
      rw [restoredQuery, condInsertKey, condInsertKey, condInsertShallow, hRv, hRf, hSh],
      restoredQuery_eq u.query hsorted hsub hshallow]

/-- C6 amended: `toURL` composed with `inputFromURL` is the identity on
canonical URLs whose sorted query carries no `submodules` parameter — with
`shallow` (if present) equal to `"1"`, `rev` (if present) a valid hash and
`ref` (if present) a valid ref name. The identity fails as soon as the query
carries `submodules`: the parameter is promoted to an attribute but `toURL`
never writes it back (the counterexample). -/
theorem C6_theorem (u : ParsedURL)
    (hscheme : u.scheme ∈ gitUrlSchemes)
    (hsorted : QKeysSorted u.query)
    (hsub : qLookup u.query "submodules" = none)
    (hshallow : ∀ v, qLookup u.query "shallow" = some v → v = "1")
    (hrev : ∀ v, qLookup u.query "rev" = some v → isGitHash v = true)
    (href : ∀ v, qLookup u.query "ref" = some v → badGitRef v = false) :
    ∃ i, inputFromURL u = .ok (some i) ∧ toURL i = .ok u := by
  refine ⟨{ attrs := urlAttrs u }, ?_,
    urlAttrs_toURL u hscheme hsorted hsub hshallow hrev⟩
  rw [inputFromURL_eq]
  have hc : gitUrlSchemes.contains u.scheme = true := List.elem_iff.mpr hscheme
  rw [hc]
  simp only [Bool.not_true, Bool.false_eq_true, if_false]
  exact urlAttrs_accepted u hsub href

/-- The canonical URL used to witness C6's amended round-trip identity. -/
def urlC6W : ParsedURL :=
  { scheme := "git+https", base := "example.org/repo",
    query := [("ref", "main"), ("rev", revHex40), ("shallow", "1")] }

/-- C6 witness: the round trip is the identity at a concrete canonical URL
with `ref`, `rev` and `shallow=1` parameters. -/
theorem C6_witness :
    ∃ i, inputFromURL urlC6W = .ok (some i) ∧ toURL i = .ok urlC6W :=
  C6_theorem urlC6W (by decide) (by unfold QKeysSorted; decide) rfl
    (fun v h => by
      rw [show qLookup urlC6W.query "shallow" = some "1" from rfl] at h
      exact (Option.some_inj.mp h).symm)
    (fun v h => by
      rw [show qLookup urlC6W.query "rev" = some revHex40 from rfl] at h
      rw [← Option.some_inj.mp h]
      decide)
    (fun v h => by
      rw [show qLookup urlC6W.query "ref" = some "main" from rfl] at h
      rw [← Option.some_inj.mp h]
      decide)

/-! ## Part 3: the fetch pipeline (`GitInputScheme::getAccessorFromCommit` and
`getAccessorFromCheckout`, `git.cc` lines 504-979)

The pipeline is embedded as a deterministic function of an `Oracle`: a record
giving the outcome of every external effect (subprocess exit and output,
cache lookup, file stat and read, store insertion), in the order the source
consults them. Subprocess invocations relevant to the claims are recorded in
an event list, which is returned also when the run ends in an error. -/

/-- `RepoInfo` (`git.cc` lines 271-303). -/
structure RepoInfo where
  shallow : Bool
  submodules : Bool
  allRefs : Bool
  cacheType : String
  isLocal : Bool
  isDirty : Bool
  hasHead : Bool
  url : String
  gitDir : String
  deriving DecidableEq, Repr

/-- The observable subprocess and filesystem effects the claims speak about. -/
inductive Event
  | gitInit
  | catFileE (rev : String)
  | revParseIsShallow
  | fetch (depth1 : Bool) (unshallow : Bool) (src : String) (dst : String)
  | warnFetchFailed
  | touch (path : String)
  | symbolicRef (ref : String)
  | catFileCommit (rev : String)
  | submoduleCheckout
  | addToStore
  deriving DecidableEq, Repr

/-- The errors the pipeline can raise. `emptyOptionalDeref` marks the spots
where the C++ dereferences a `std::optional` that may be unset
(`*input.getRev()` / `input.getRev()->gitRev()`), which is undefined
behavior in the source. -/
inductive GitError
  | assertFailed
  | missingAttr (k : String)
  | emptyOptionalDeref
  | subprocessFailed (what : String)
  | fetchFailed
  | badHashParse (s : String)
  | shallowNotAllowed (url : String)
  | revNotFoundInRef (rev : String) (ref : String) (url : String)
  | dirtyTree (url : String)
  deriving DecidableEq, Repr

/-- The three outcomes of `runProgram` for `git cat-file -e <rev>`
(`git.cc` lines 599-609): success, failure with `WIFEXITED` (a fetch is
needed), or an abnormal termination that is rethrown. -/
inductive CatRes
  | ok
  | failExited
  | failSignal
  deriving DecidableEq, Repr

/-- The environment of one run: the outcome of every external effect, in the
order the source consults them. `lockedLookup` is keyed by the revision the
locked cache record is looked up under; `isShallowRepo1/2/3` are the three
`git rev-parse --is-shallow-repository` calls (lines 625, 659, 692), which
may observe different repository states. -/
structure Oracle where
  lockedLookup : String → Option (Attrs × String)
  unlockedLookup : Option (Attrs × String)
  defaultRef : String
  cacheDirExists : Bool
  revParseLocal : String → Option String
  catFileEResult : CatRes
  localRefMtime : Option Nat
  now : Nat
  ttl : Nat
  isShallowRepo1 : Bool
  isShallowRepo2 : Bool
  fetchOk : Bool
  localRefExistsAfterFetchFail : Bool
  localRefRead : Option String
  isShallowRepo3 : Bool
  factLastModified : String → Option Nat
  gitLogLastModified : String → Option Nat
  factRevCount : String → Option Nat
  gitRevListCount : String → Option Nat
  catFileCommitExit : Nat
  catFileCommitBadFile : Bool
  submoduleCmdsOk : Bool
  storePathNew : String
  narHashOf : String → String
  allowDirty : Bool
  gitLogHeadLastModified : Option Nat

/-- Which return path of `getAccessorFromCommit` produced the result. -/
inductive PathTag
  | lockedHit
  | unlockedHit
  | lockedHit2
  | native
  | materialized
  deriving DecidableEq, Repr

/-- The string attribute accessors `Input::getRev` / `Input::getRef`
(defined outside `src/`), read as plain strings; the hash-parsing done by
`getRev` appears explicitly at the call sites below that parse output. -/
def attrStr (a : Attrs) (k : String) : Option String :=
  match lookupAttr a k with
  | some (.str s) => some s
  | _ => none

/-- `chomp`, dropping trailing line ends. -/
def chomp (s : String) : String :=
  String.mk (((s.data.reverse.dropWhile fun c => c == '\n' || c == '\r')).reverse)

/-- The integer attribute read `getIntAttr` performs on cached info
attributes; absent or non-integer attributes make it throw. -/
def getIntAttrO (a : Attrs) (k : String) : Option Nat :=
  match lookupAttr a k with
  | some (.intv n) => some n
  | _ => none

/-- `getLastModified` (hash overload, `git.cc` lines 437-455): 0 without a
HEAD; otherwise the fact cache under `git-<rev>-last-modified`, falling back
to `git log -1 --format=%ct <rev>` whose failure propagates. -/
def getLastModifiedRev (o : Oracle) (ri : RepoInfo) (rev : String) :
    Except GitError Nat :=
  if !ri.hasHead then .ok 0
  else
    match o.factLastModified rev with
    | some v => .ok v
    | none =>
      match o.gitLogLastModified rev with
      | some v => .ok v
      | none => .error (.subprocessFailed "git log")

/-- `getRevCount` (`git.cc` lines 457-479): 0 without a HEAD; otherwise the
fact cache under `git-<rev>-revcount`, falling back to
`git rev-list --count <rev>` whose failure propagates. -/
def getRevCountRev (o : Oracle) (ri : RepoInfo) (rev : String) :
    Except GitError Nat :=
  if !ri.hasHead then .ok 0
  else
    match o.factRevCount rev with
    | some v => .ok v
    | none =>
      match o.gitRevListCount rev with
      | some v => .ok v
      | none => .error (.subprocessFailed "git rev-list")

/-- `makeResult2` (`git.cc` lines 524-534): assert a rev is set and agrees
with the original one; copy `revCount` from the info attributes unless
shallow; copy `lastModified`. -/
def makeResult2 (ri : RepoInfo) (origRev : Option String) (a : Attrs)
    (infoAttrs : Attrs) (tag : PathTag) : Except GitError (PathTag × Attrs) :=
  match attrStr a "rev" with
  | none => .error .assertFailed
  | some r =>
    if origRev.isSome && origRev != some r then .error .assertFailed
    else
      match (if !ri.shallow then
          match getIntAttrO infoAttrs "revCount" with
          | some n => .ok (insertOrAssign a "revCount" (.intv n))
          | none => .error (.missingAttr "revCount")
        else .ok a : Except GitError Attrs) with
      | .error e => .error e
      | .ok a1 =>
        match getIntAttrO infoAttrs "lastModified" with
        | some n => .ok (tag, insertOrAssign a1 "lastModified" (.intv n))
        | none => .error (.missingAttr "lastModified")

/-- `makeResult` (`git.cc` lines 536-546): query the store path's narHash,
set the `narHash` attribute, then `makeResult2`. -/
def makeResult (o : Oracle) (ri : RepoInfo) (origRev : Option String) (a : Attrs)
    (infoAttrs : Attrs) (storePath : String) (tag : PathTag) :
    Except GitError (PathTag × Attrs) :=
  makeResult2 ri origRev (insertOrAssign a "narHash" (.str (o.narHashOf storePath)))
    infoAttrs tag

/-- The local ref file of the mirror (`git.cc` lines 589-592): under the
cache directory, the verbatim ref when it starts with `refs/`, otherwise
`refs/heads/<ref>`. -/
def localRefFileOf (ref : String) : String :=
  if leadingMatch ("refs/".data) ref.data then "cacheDir/" ++ ref
  else "cacheDir/refs/heads/" ++ ref

/-- `isCacheFileWithinTtl` (`git.cc` lines 32-35). -/
def isCacheFileWithinTtl (now mtime ttl : Nat) : Bool :=
  decide (mtime + ttl > now)

/-- The tail of `getAccessorFromCommit` after the revision is resolved
(`git.cc` lines 692-933): the final shallow check, info-attribute
construction via the fact caches, the second locked-cache lookup, the
non-submodule native-accessor return, and the submodule materialization
with the `cat-file commit` missing-revision check. -/
def commitFinish (o : Oracle) (ri : RepoInfo) (origRev : Option String)
    (a : Attrs) (ref : String) : List Event × Except GitError (PathTag × Attrs) :=
  if o.isShallowRepo3 && !ri.shallow then
    ([Event.revParseIsShallow], .error (.shallowNotAllowed ri.url))
  else
    match attrStr a "rev" with
    | none => ([Event.revParseIsShallow], .error .emptyOptionalDeref)
    | some rev =>
      match getLastModifiedRev o ri rev with
      | .error e => ([Event.revParseIsShallow], .error e)
      | .ok lm =>
        match (if !ri.shallow then
            match getRevCountRev o ri rev with
            | .ok rc => .ok (insertOrAssign
                [("rev", AttrVal.str rev), ("lastModified", AttrVal.intv lm)]
                "revCount" (.intv rc))
            | .error e => .error e
          else .ok [("rev", AttrVal.str rev), ("lastModified", AttrVal.intv lm)]
          : Except GitError Attrs) with
        | .error e => ([Event.revParseIsShallow], .error e)
        | .ok infoAttrs =>
          match o.lockedLookup rev with
          | some (ia, sp) =>
            ([Event.revParseIsShallow], makeResult o ri origRev a ia sp .lockedHit2)
          | none =>
            if !ri.submodules then
              ([Event.revParseIsShallow], makeResult2 ri origRev a infoAttrs .native)
            else
              if o.catFileCommitExit == 128 && o.catFileCommitBadFile then
                ([Event.revParseIsShallow, Event.catFileCommit rev],
                 .error (.revNotFoundInRef rev ref ri.url))
              else
                if !o.submoduleCmdsOk then
                  ([Event.revParseIsShallow, Event.catFileCommit rev,
                    Event.submoduleCheckout],
                   .error (.subprocessFailed "submodule"))
                else
                  ([Event.revParseIsShallow, Event.catFileCommit rev,
                    Event.submoduleCheckout, Event.addToStore],
                   makeResult o ri origRev a infoAttrs o.storePathNew .materialized)

/-- Lines 686-687: when no rev is set yet, read it from the local ref file
and parse it as SHA-1. -/
def resolveRevFromRefFile (o : Oracle) (a : Attrs) :
    Except GitError Attrs :=
  match attrStr a "rev" with
  | some _ => .ok a
  | none =>
    match o.localRefRead with
    | none => .error (.subprocessFailed "readFile localRefFile")
    | some s =>
      if isSha1Hash (chomp s) then .ok (insertOrAssign a "rev" (.str (chomp s)))
      else .error (.badHashParse (chomp s))

/-- The fetch decision (`git.cc` lines 594-620): with a rev, fetch exactly
when `git cat-file -e` fails with a normal exit (an abnormal exit is
rethrown); without one, fetch when `allRefs` is set or the local ref file is
missing or stale. -/
def fetchDecision (o : Oracle) (ri : RepoInfo) (a : Attrs) :
    List Event × Except GitError Bool :=
  match attrStr a "rev" with
  | some r =>
    ([Event.catFileE r],
      match o.catFileEResult with
      | .ok => .ok false
      | .failExited => .ok true
      | .failSignal => .error (.subprocessFailed "cat-file -e"))
  | none =>
    ([],
      .ok (if ri.allRefs then true
        else
          match o.localRefMtime with
          | none => true
          | some m => !(isCacheFileWithinTtl o.now m o.ttl)))

/-- The mirror phase of `getAccessorFromCommit` for remote inputs
(`git.cc` lines 578-690): ensure the bare mirror exists, decide whether to
fetch, forcing it when the mirror is shallow but a full clone is wanted,
build and run the fetch with its refspec, fall back to the cached ref file
on fetch failure, touch the ref file's mtime and update the cached HEAD,
then resolve the revision from the local ref file. -/
def fetchPhase (o : Oracle) (ri : RepoInfo) (a : Attrs) (ref : String)
    (originalRef : Option String) : List Event × Except GitError Attrs :=
  match (if !o.cacheDirExists then [Event.gitInit] else [], fetchDecision o ri a) with
  | (evInit, (evDecide, .error e)) => (evInit ++ evDecide, .error e)
  | (evInit, (evDecide, .ok doFetch0)) =>
    let evs0 := evInit ++ evDecide ++ [Event.revParseIsShallow]
    if doFetch0 || (o.isShallowRepo1 && !ri.shallow) then
      match (if ri.allRefs then "refs/*"
        else if leadingMatch ("refs/".data) ref.data then ref
        else if ref == "HEAD" then ref
        else "refs/heads/" ++ ref : String) with
      | fetchRef =>
        match (if ri.shallow then ([], true, false)
          else ([Event.revParseIsShallow], false, o.isShallowRepo2)
          : List Event × Bool × Bool) with
        | (evsB, depth1, unshallow) =>
          match (if ri.shallow then
              match attrStr a "rev" with
              | some r => .ok r
              | none => .error .emptyOptionalDeref
            else .ok fetchRef : Except GitError String) with
          | .error e => (evs0 ++ evsB, .error e)
          | .ok src =>
            let evs1 := evs0 ++ evsB ++ [Event.fetch depth1 unshallow src fetchRef]
            match (if o.fetchOk then ([], .ok ())
              else if !o.localRefExistsAfterFetchFail then ([], .error .fetchFailed)
              else ([Event.warnFetchFailed], .ok ())
              : List Event × Except GitError Unit) with
            | (evsC, .error e) => (evs1 ++ evsC, .error e)
            | (evsC, .ok _) =>
              let evs2 := evs1 ++ evsC ++ [Event.touch (localRefFileOf ref)]
                ++ (if originalRef.isNone then [Event.symbolicRef ref] else [])
              (evs2, resolveRevFromRefFile o a)
    else
      (evs0, resolveRevFromRefFile o a)

/-- The middle of `getAccessorFromCommit` (`git.cc` lines 553-690): resolve
the effective ref, then either resolve the rev locally via `git rev-parse`
(`updateRev`), or consult the unlocked cache record and, on a miss or a rev
mismatch, run the mirror phase. -/
def commitResolve (o : Oracle) (ri : RepoInfo) (origRev : Option String)
    (a0 : Attrs) : List Event × Except GitError (PathTag × Attrs) :=
  match attrStr a0 "ref" with
  | originalRef =>
    match (match originalRef with
      | some r => r
      | none => o.defaultRef : String) with
    | ref =>
      match insertOrAssign a0 "ref" (.str ref) with
      | a =>
        if ri.isLocal then
          match attrStr a "rev" with
          | some _ => commitFinish o ri origRev a ref
          | none =>
            match o.revParseLocal ref with
            | none => ([], .error (.subprocessFailed "git rev-parse"))
            | some out =>
              if isSha1Hash (chomp out) then
                commitFinish o ri origRev
                  (insertOrAssign a "rev" (.str (chomp out))) ref
              else ([], .error (.badHashParse (chomp out)))
        else
          match o.unlockedLookup with
          | some (ia, sp) =>
            match attrStr ia "rev" with
            | none => ([], .error (.missingAttr "rev"))
            | some rev2 =>
              if !(isSha1Hash rev2) then ([], .error (.badHashParse rev2))
              else if (attrStr a "rev").isNone || attrStr a "rev" == some rev2 then
                ([], makeResult o ri origRev (insertOrAssign a "rev" (.str rev2))
                  ia sp .unlockedHit)
              else
                match fetchPhase o ri a ref originalRef with
                | (evs, .error e) => (evs, .error e)
                | (evs, .ok a2) =>
                  match commitFinish o ri origRev a2 ref with
                  | (evs2, r) => (evs ++ evs2, r)
          | none =>
            match fetchPhase o ri a ref originalRef with
            | (evs, .error e) => (evs, .error e)
            | (evs, .ok a2) =>
              match commitFinish o ri origRev a2 ref with
              | (evs2, r) => (evs ++ evs2, r)

/-- `getAccessorFromCommit` (`git.cc` lines 504-933): the dirty assertion,
the first locked-cache lookup when a rev is given, then the resolution
pipeline. -/
def getAccessorFromCommit (o : Oracle) (ri : RepoInfo) (a : Attrs) :
    List Event × Except GitError (PathTag × Attrs) :=
  if ri.isDirty then ([], .error .assertFailed)
  else
    match attrStr a "rev" with
    | some r =>
      match o.lockedLookup r with
      | some (ia, sp) => ([], makeResult o ri (some r) a ia sp .lockedHit)
      | none => commitResolve o ri (some r) a
    | none => commitResolve o ri none a

/-- `getAccessorFromCheckout` (`git.cc` lines 935-966): on a clean tree,
resolve the default ref, the rev (`updateRev`), the revision count and the
last-modified time (note `revCount` is set unconditionally here); on a
dirty tree, fail unless dirty trees are allowed and set only
`lastModified` from HEAD. -/
def getAccessorFromCheckout (o : Oracle) (ri : RepoInfo) (a0 : Attrs) :
    Except GitError Attrs :=
  if !ri.isDirty then
    match insertOrAssign a0 "ref" (.str o.defaultRef) with
    | a1 =>
      match (match attrStr a1 "rev" with
        | some r => .ok (r, a1)
        | none =>
          match o.revParseLocal o.defaultRef with
          | none => .error (.subprocessFailed "git rev-parse")
          | some out =>
            if isSha1Hash (chomp out) then
              .ok (chomp out, insertOrAssign a1 "rev" (.str (chomp out)))
            else .error (.badHashParse (chomp out))
        : Except GitError (String × Attrs)) with
      | .error e => .error e
      | .ok (rev, a2) =>
        match getRevCountRev o ri rev with
        | .error e => .error e
        | .ok rc =>
          match getLastModifiedRev o ri rev with
          | .error e => .error e
          | .ok lm =>
            .ok (insertOrAssign (insertOrAssign a2 "revCount" (.intv rc))
              "lastModified" (.intv lm))
  else
    if !o.allowDirty then .error (.dirtyTree ri.url)
    else
      match (if ri.hasHead then
          match o.gitLogHeadLastModified with
          | some v => .ok v
          | none => .error (.subprocessFailed "git log")
        else .ok 0 : Except GitError Nat) with
      | .error e => .error e
      | .ok lm => .ok (insertOrAssign a0 "lastModified" (.intv lm))

/-! ## Lemmas about the pipeline's results -/

theorem attrStr_some (a : Attrs) (k s : String) (h : attrStr a k = some s) :
    lookupAttr a k = some (.str s) := by
  unfold attrStr at h
  cases hl : lookupAttr a k with
  | none => rw [hl] at h; cases h
  | some v =>
    rw [hl] at h
    cases v with
    | str w => cases h; rfl
    | intv n => cases h
    | boolv b => cases h
    | urlv u => cases h

theorem makeResult2_props (ri : RepoInfo) (origRev : Option String) (a : Attrs)
    (ia : Attrs) (tag tg : PathTag) (out : Attrs)
    (h : makeResult2 ri origRev a ia tag = .ok (tg, out)) :
    tg = tag
    ∧ (lookupAttr out "rev").isSome = true
    ∧ (lookupAttr out "lastModified").isSome = true
    ∧ (ri.shallow = false → (lookupAttr out "revCount").isSome = true)
    ∧ (ri.shallow = true → lookupAttr out "revCount" = lookupAttr a "revCount")
    ∧ lookupAttr out "narHash" = lookupAttr a "narHash" := by
  unfold makeResult2 at h
  cases hr : attrStr a "rev" with
  | none => rw [hr] at h; cases h
  | some r =>
    rw [hr] at h
    dsimp only at h
    have hrl : lookupAttr a "rev" = some (.str r) := attrStr_some a "rev" r hr
    cases hassert : (origRev.isSome && origRev != some r) with
    | true => rw [hassert] at h; simp at h
    | false =>
      rw [hassert] at h
      simp only [Bool.false_eq_true, if_false] at h
      cases hs : ri.shallow with
      | true =>
        simp only [hs, Bool.not_true, Bool.false_eq_true, if_false] at h
        cases hlm : getIntAttrO ia "lastModified" with
        | none => rw [hlm] at h; cases h
        | some n =>
          rw [hlm] at h
          cases h
          refine ⟨rfl, ?_, ?_, ?_, ?_, ?_⟩
          · rw [lookupAttr_insertOrAssign_ne _ _ _ _ (by decide), hrl]; rfl
          · rw [lookupAttr_insertOrAssign_self]; rfl
          · intro hfalse; exact absurd hfalse (by decide)
          · intro _
            rw [lookupAttr_insertOrAssign_ne _ _ _ _ (by decide)]
          · rw [lookupAttr_insertOrAssign_ne _ _ _ _ (by decide)]
      | false =>
        simp only [hs, Bool.not_false, if_true] at h
        cases hrc : getIntAttrO ia "revCount" with
        | none => rw [hrc] at h; cases h
        | some rc =>
          rw [hrc] at h
          simp only at h
          cases hlm : getIntAttrO ia "lastModified" with
          | none => rw [hlm] at h; cases h
          | some n =>
            rw [hlm] at h
            cases h
            refine ⟨rfl, ?_, ?_, ?_, ?_, ?_⟩
            · rw [lookupAttr_insertOrAssign_ne _ _ _ _ (by decide),
                lookupAttr_insertOrAssign_ne _ _ _ _ (by decide), hrl]
              rfl
            · rw [lookupAttr_insertOrAssign_self]; rfl
            · intro _
              rw [lookupAttr_insertOrAssign_ne _ _ _ _ (by decide),
                lookupAttr_insertOrAssign_self]
              rfl
            · intro htrue; exact absurd htrue (by decide)
            · rw [lookupAttr_insertOrAssign_ne _ _ _ _ (by decide),
                lookupAttr_insertOrAssign_ne _ _ _ _ (by decide)]

theorem makeResult_props (o : Oracle) (ri : RepoInfo) (origRev : Option String)
    (a : Attrs) (ia : Attrs) (sp : String) (tag tg : PathTag) (out : Attrs)
    (h : makeResult o ri origRev a ia sp tag = .ok (tg, out)) :
    tg = tag
    ∧ (lookupAttr out "rev").isSome = true
    ∧ (lookupAttr out "lastModified").isSome = true
    ∧ (ri.shallow = false → (lookupAttr out "revCount").isSome = true)
    ∧ (ri.shallow = true → lookupAttr out "revCount" = lookupAttr a "revCount")
    ∧ (lookupAttr out "narHash").isSome = true := by
  unfold makeResult at h
  obtain ⟨h1, h2, h3, h4, h5, h6⟩ := makeResult2_props _ _ _ _ _ _ _ h
  refine ⟨h1, h2, h3, h4, ?_, ?_⟩
  · intro hs
    rw [h5 hs, lookupAttr_insertOrAssign_ne _ _ _ _ (by decide)]
  · rw [h6, lookupAttr_insertOrAssign_self]
    rfl

theorem commitFinish_props (o : Oracle) (ri : RepoInfo) (origRev : Option String)
    (a : Attrs) (ref : String) (evs : List Event) (tg : PathTag) (out : Attrs)
    (h : commitFinish o ri origRev a ref = (evs, .ok (tg, out))) :
    (lookupAttr out "rev").isSome = true
    ∧ (lookupAttr out "lastModified").isSome = true
    ∧ (ri.shallow = false → (lookupAttr out "revCount").isSome = true)
    ∧ (ri.shallow = true → lookupAttr out "revCount" = lookupAttr a "revCount")
    ∧ (tg = .native → lookupAttr out "narHash" = lookupAttr a "narHash")
    ∧ (tg ≠ .native → (lookupAttr out "narHash").isSome = true) := by
  unfold commitFinish at h
  cases h0 : (o.isShallowRepo3 && !ri.shallow) with
  | true => rw [h0] at h; simp at h
  | false =>
    rw [h0] at h
    simp only [Bool.false_eq_true, if_false] at h
    cases h1 : attrStr a "rev" with
    | none => rw [h1] at h; simp at h
    | some rev =>
      rw [h1] at h
      dsimp only at h
      cases h2 : getLastModifiedRev o ri rev with
      | error e => rw [h2] at h; simp at h
      | ok lm =>
        rw [h2] at h
        dsimp only at h
        cases hinfo : (if !ri.shallow then
            match getRevCountRev o ri rev with
            | .ok rc => Except.ok (insertOrAssign
                [("rev", AttrVal.str rev), ("lastModified", AttrVal.intv lm)]
                "revCount" (.intv rc))
            | .error e => Except.error e
          else Except.ok [("rev", AttrVal.str rev), ("lastModified", AttrVal.intv lm)]
          : Except GitError Attrs) with
        | error e => rw [hinfo] at h; simp at h
        | ok infoAttrs =>
          rw [hinfo] at h
          dsimp only at h
          cases h3 : o.lockedLookup rev with
          | some pr =>
            obtain ⟨ia, sp⟩ := pr
            rw [h3] at h
            dsimp only at h
            injection h with hE hR
            obtain ⟨ht, hx1, hx2, hx3, hx4, hx5⟩ :=
              makeResult_props o ri origRev a ia sp .lockedHit2 tg out hR
            exact ⟨hx1, hx2, hx3, hx4,
              fun hn => absurd (ht.symm.trans hn) (by decide),
              fun _ => hx5⟩
          | none =>
            rw [h3] at h
            dsimp only at h
            cases hm : ri.submodules with
            | false =>
              simp only [hm, Bool.not_false, if_true] at h
              injection h with hE hR
              obtain ⟨ht, hx1, hx2, hx3, hx4, hx5⟩ :=
                makeResult2_props ri origRev a infoAttrs .native tg out hR
              exact ⟨hx1, hx2, hx3, hx4, fun _ => hx5,
                fun hn => absurd ht hn⟩
            | true =>
              simp only [hm, Bool.not_true, Bool.false_eq_true, if_false] at h
              cases h4 : (o.catFileCommitExit == 128 && o.catFileCommitBadFile) with
              | true => rw [h4] at h; simp at h
              | false =>
                rw [h4] at h
                simp only [Bool.false_eq_true, if_false] at h
                cases h5 : o.submoduleCmdsOk with
                | false => rw [h5] at h; simp at h
                | true =>
                  simp only [h5, Bool.not_true, Bool.false_eq_true, if_false] at h
                  injection h with hE hR
                  obtain ⟨ht, hx1, hx2, hx3, hx4, hx5⟩ :=
                    makeResult_props o ri origRev a infoAttrs o.storePathNew
                      .materialized tg out hR
                  exact ⟨hx1, hx2, hx3, hx4,
                    fun hn => absurd (ht.symm.trans hn) (by decide),
                    fun _ => hx5⟩

theorem resolveRev_props (o : Oracle) (a a2 : Attrs)
    (h : resolveRevFromRefFile o a = .ok a2) :
    lookupAttr a2 "revCount" = lookupAttr a "revCount"
    ∧ lookupAttr a2 "narHash" = lookupAttr a "narHash" := by
  unfold resolveRevFromRefFile at h
  cases h1 : attrStr a "rev" with
  | some r =>
    rw [h1] at h
    cases h
    exact ⟨rfl, rfl⟩
  | none =>
    rw [h1] at h
    cases h2 : o.localRefRead with
    | none => rw [h2] at h; cases h
    | some s =>
      rw [h2] at h
      dsimp only at h
      cases h3 : isSha1Hash (chomp s) with
      | false => rw [h3] at h; simp at h
      | true =>
        rw [h3] at h
        simp only [if_true] at h
        cases h
        exact ⟨lookupAttr_insertOrAssign_ne _ _ _ _ (by decide),
          lookupAttr_insertOrAssign_ne _ _ _ _ (by decide)⟩

theorem fetchPhase_props (o : Oracle) (ri : RepoInfo) (a : Attrs) (ref : String)
    (originalRef : Option String) (evs : List Event) (a2 : Attrs)
    (h : fetchPhase o ri a ref originalRef = (evs, .ok a2)) :
    lookupAttr a2 "revCount" = lookupAttr a "revCount"
    ∧ lookupAttr a2 "narHash" = lookupAttr a "narHash" := by
  unfold fetchPhase at h
  cases hd : fetchDecision o ri a with
  | mk evD rD =>
    rw [hd] at h
    cases rD with
    | error e => dsimp only at h; injection h with hE hR; cases hR
    | ok doFetch0 =>
      dsimp only at h
      cases hdf : (doFetch0 || (o.isShallowRepo1 && !ri.shallow)) with
      | false =>
        rw [hdf] at h
        simp only [Bool.false_eq_true, if_false] at h
        injection h with hE hR
        exact resolveRev_props o a a2 hR
      | true =>
        rw [hdf] at h
        simp only [if_true] at h
        cases hs : ri.shallow with
        | true =>
          simp only [hs, if_true] at h
          cases h1 : attrStr a "rev" with
          | none => rw [h1] at h; dsimp only at h; injection h with hE hR; cases hR
          | some r =>
            rw [h1] at h
            dsimp only at h
            cases hf : o.fetchOk with
            | true =>
              simp only [hf, if_true] at h
              injection h with hE hR
              exact resolveRev_props o a a2 hR
            | false =>
              simp only [hf, Bool.false_eq_true, if_false] at h
              cases hx : o.localRefExistsAfterFetchFail with
              | false =>
                simp only [hx, Bool.not_false, if_true] at h
                injection h with hE hR
                cases hR
              | true =>
                simp only [hx, Bool.not_true, Bool.false_eq_true, if_false] at h
                injection h with hE hR
                exact resolveRev_props o a a2 hR
        | false =>
          simp only [hs, Bool.false_eq_true, if_false] at h
          cases hf : o.fetchOk with
          | true =>
            simp only [hf, if_true] at h
            injection h with hE hR
            exact resolveRev_props o a a2 hR
          | false =>
            simp only [hf, Bool.false_eq_true, if_false] at h
            cases hx : o.localRefExistsAfterFetchFail with
            | false =>
              simp only [hx, Bool.not_false, if_true] at h
              injection h with hE hR
              cases hR
            | true =>
              simp only [hx, Bool.not_true, Bool.false_eq_true, if_false] at h
              injection h with hE hR
              exact resolveRev_props o a a2 hR

theorem commitResolve_props (o : Oracle) (ri : RepoInfo) (origRev : Option String)
    (a0 : Attrs) (evs : List Event) (tg : PathTag) (out : Attrs)
    (h : commitResolve o ri origRev a0 = (evs, .ok (tg, out))) :
    (lookupAttr out "rev").isSome = true
    ∧ (lookupAttr out "lastModified").isSome = true
    ∧ (ri.shallow = false → (lookupAttr out "revCount").isSome = true)
    ∧ (ri.shallow = true → lookupAttr out "revCount" = lookupAttr a0 "revCount")
    ∧ (tg = .native → lookupAttr out "narHash" = lookupAttr a0 "narHash")
    ∧ (tg ≠ .native → (lookupAttr out "narHash").isSome = true) := by
  unfold commitResolve at h
  dsimp only at h
  have hpresRC : ∀ x : AttrVal, ∀ k : String,
      lookupAttr (insertOrAssign a0 "ref" x) "revCount" = lookupAttr a0 "revCount" :=
    fun x _ => lookupAttr_insertOrAssign_ne _ _ _ _ (by decide)
  have hpresNH :
      lookupAttr (insertOrAssign a0 "ref" (AttrVal.str (match attrStr a0 "ref" with
        | some r => r
        | none => o.defaultRef))) "narHash" = lookupAttr a0 "narHash" :=
    lookupAttr_insertOrAssign_ne _ _ _ _ (by decide)
  cases hl : ri.isLocal with
  | true =>
    rw [hl] at h
    simp only [if_true] at h
    cases h1 : attrStr (insertOrAssign a0 "ref" (AttrVal.str (match attrStr a0 "ref" with
        | some r => r
        | none => o.defaultRef))) "rev" with
    | some r =>
      rw [h1] at h
      obtain ⟨hx1, hx2, hx3, hx4, hx5, hx6⟩ := commitFinish_props _ _ _ _ _ _ _ _ h
      exact ⟨hx1, hx2, hx3,
        fun hs => (hx4 hs).trans (hpresRC _ "revCount"),
        fun hn => (hx5 hn).trans hpresNH, hx6⟩
    | none =>
      rw [h1] at h
      cases h2 : o.revParseLocal (match attrStr a0 "ref" with
          | some r => r
          | none => o.defaultRef) with
      | none => rw [h2] at h; dsimp only at h; injection h with hE hR; cases hR
      | some outp =>
        rw [h2] at h
        dsimp only at h
        cases h3 : isSha1Hash (chomp outp) with
        | false => rw [h3] at h; simp only [Bool.false_eq_true, if_false] at h;
                   injection h with hE hR; cases hR
        | true =>
          rw [h3] at h
          simp only [if_true] at h
          obtain ⟨hx1, hx2, hx3, hx4, hx5, hx6⟩ := commitFinish_props _ _ _ _ _ _ _ _ h
          refine ⟨hx1, hx2, hx3, ?_, ?_, hx6⟩
          · intro hs
            rw [hx4 hs, lookupAttr_insertOrAssign_ne _ _ _ _ (by decide),
              hpresRC _ "revCount"]
          · intro hn
            rw [hx5 hn, lookupAttr_insertOrAssign_ne _ _ _ _ (by decide), hpresNH]
  | false =>
    rw [hl] at h
    simp only [Bool.false_eq_true, if_false] at h
    cases hu : o.unlockedLookup with
    | some pr =>
      obtain ⟨ia, sp⟩ := pr
      rw [hu] at h
      dsimp only at h
      cases h1 : attrStr ia "rev" with
      | none => rw [h1] at h; dsimp only at h; injection h with hE hR; cases hR
      | some rev2 =>
        rw [h1] at h
        dsimp only at h
        cases h2 : isSha1Hash rev2 with
        | false =>
          simp only [h2, Bool.not_false, if_true] at h
          injection h with hE hR; cases hR
        | true =>
          simp only [h2, Bool.not_true, Bool.false_eq_true, if_false] at h
          cases h3 : ((attrStr (insertOrAssign a0 "ref"
              (AttrVal.str (match attrStr a0 "ref" with
                | some r => r
                | none => o.defaultRef))) "rev").isNone
              || attrStr (insertOrAssign a0 "ref"
              (AttrVal.str (match attrStr a0 "ref" with
                | some r => r
                | none => o.defaultRef))) "rev" == some rev2) with
          | true =>
            rw [h3] at h
            simp only [if_true] at h
            injection h with hE hR
            obtain ⟨ht, hx1, hx2, hx3, hx4, hx5⟩ := makeResult_props _ _ _ _ _ _ _ _ _ hR
            refine ⟨hx1, hx2, hx3, ?_, ?_, fun _ => hx5⟩
            · intro hs
              rw [hx4 hs, lookupAttr_insertOrAssign_ne _ _ _ _ (by decide),
                hpresRC _ "revCount"]
            · intro hn
              exact absurd (ht.symm.trans hn) (by decide)
          | false =>
            rw [h3] at h
            simp only [Bool.false_eq_true, if_false] at h
            cases hf : fetchPhase o ri (insertOrAssign a0 "ref"
                (AttrVal.str (match attrStr a0 "ref" with
                  | some r => r
                  | none => o.defaultRef)))
                (match attrStr a0 "ref" with
                  | some r => r
                  | none => o.defaultRef) (attrStr a0 "ref") with
            | mk evF rF =>
              rw [hf] at h
              cases rF with
              | error e => dsimp only at h; injection h with hE hR; cases hR
              | ok a2 =>
                dsimp only at h
                cases hcf : commitFinish o ri origRev a2
                    (match attrStr a0 "ref" with
                      | some r => r
                      | none => o.defaultRef) with
                | mk evC rC =>
                  rw [hcf] at h
                  dsimp only at h
                  injection h with hE hR
                  rw [hR] at hcf
                  obtain ⟨hp1, hp2⟩ := fetchPhase_props _ _ _ _ _ _ _ hf
                  obtain ⟨hx1, hx2, hx3, hx4, hx5, hx6⟩ :=
                    commitFinish_props _ _ _ _ _ _ _ _ hcf
                  refine ⟨hx1, hx2, hx3, ?_, ?_, hx6⟩
                  · intro hs
                    rw [hx4 hs, hp1, hpresRC _ "revCount"]
                  · intro hn
                    rw [hx5 hn, hp2, hpresNH]
    | none =>
      rw [hu] at h
      dsimp only at h
      cases hf : fetchPhase o ri (insertOrAssign a0 "ref"
          (AttrVal.str (match attrStr a0 "ref" with
            | some r => r
            | none => o.defaultRef)))
          (match attrStr a0 "ref" with
            | some r => r
            | none => o.defaultRef) (attrStr a0 "ref") with
      | mk evF rF =>
        rw [hf] at h
        cases rF with
        | error e => dsimp only at h; injection h with hE hR; cases hR
        | ok a2 =>
          dsimp only at h
          cases hcf : commitFinish o ri origRev a2
              (match attrStr a0 "ref" with
                | some r => r
                | none => o.defaultRef) with
          | mk evC rC =>
            rw [hcf] at h
            dsimp only at h
            injection h with hE hR
            rw [hR] at hcf
            obtain ⟨hp1, hp2⟩ := fetchPhase_props _ _ _ _ _ _ _ hf
            obtain ⟨hx1, hx2, hx3, hx4, hx5, hx6⟩ :=
              commitFinish_props _ _ _ _ _ _ _ _ hcf
            refine ⟨hx1, hx2, hx3, ?_, ?_, hx6⟩
            · intro hs
              rw [hx4 hs, hp1, hpresRC _ "revCount"]
            · intro hn
              rw [hx5 hn, hp2, hpresNH]

theorem getAccessorFromCommit_props (o : Oracle) (ri : RepoInfo) (a : Attrs)
    (evs : List Event) (tg : PathTag) (out : Attrs)
    (h : getAccessorFromCommit o ri a = (evs, .ok (tg, out))) :
    (lookupAttr out "rev").isSome = true
    ∧ (lookupAttr out "lastModified").isSome = true
    ∧ (ri.shallow = false → (lookupAttr out "revCount").isSome = true)
    ∧ (ri.shallow = true → lookupAttr out "revCount" = lookupAttr a "revCount")
    ∧ (tg = .native → lookupAttr out "narHash" = lookupAttr a "narHash")
    ∧ (tg ≠ .native → (lookupAttr out "narHash").isSome = true) := by
  unfold getAccessorFromCommit at h
  cases hd : ri.isDirty with
  | true => rw [hd] at h; simp at h
  | false =>
    rw [hd] at h
    simp only [Bool.false_eq_true, if_false] at h
    cases h1 : attrStr a "rev" with
    | none =>
      rw [h1] at h
      exact commitResolve_props _ _ _ _ _ _ _ h
    | some r =>
      rw [h1] at h
      dsimp only at h
      cases h2 : o.lockedLookup r with
      | none =>
        rw [h2] at h
        exact commitResolve_props _ _ _ _ _ _ _ h
      | some pr =>
        obtain ⟨ia, sp⟩ := pr
        rw [h2] at h
        dsimp only at h
        injection h with hE hR
        obtain ⟨ht, hx1, hx2, hx3, hx4, hx5⟩ := makeResult_props _ _ _ _ _ _ _ _ _ hR
        exact ⟨hx1, hx2, hx3, hx4,
          fun hn => absurd (ht.symm.trans hn) (by decide), fun _ => hx5⟩

theorem getAccessorFromCheckout_props (o : Oracle) (ri : RepoInfo) (a : Attrs)
    (out : Attrs) (hd : ri.isDirty = false)
    (h : getAccessorFromCheckout o ri a = .ok out) :
    (lookupAttr out "rev").isSome = true
    ∧ (lookupAttr out "lastModified").isSome = true
    ∧ (lookupAttr out "revCount").isSome = true
    ∧ lookupAttr out "narHash" = lookupAttr a "narHash" := by
  unfold getAccessorFromCheckout at h
  rw [hd] at h
  simp only [Bool.not_false, if_true] at h
  cases h1 : attrStr (insertOrAssign a "ref" (AttrVal.str o.defaultRef)) "rev" with
  | some r =>
    rw [h1] at h
    dsimp only at h
    cases h2 : getRevCountRev o ri r with
    | error e => rw [h2] at h; cases h
    | ok rc =>
      rw [h2] at h
      dsimp only at h
      cases h3 : getLastModifiedRev o ri r with
      | error e => rw [h3] at h; cases h
      | ok lm =>
        rw [h3] at h
        cases h
        refine ⟨?_, ?_, ?_, ?_⟩
        · rw [lookupAttr_insertOrAssign_ne _ _ _ _ (by decide),
            lookupAttr_insertOrAssign_ne _ _ _ _ (by decide),
            attrStr_some _ _ _ h1]
          rfl
        · rw [lookupAttr_insertOrAssign_self]; rfl
        · rw [lookupAttr_insertOrAssign_ne _ _ _ _ (by decide),
            lookupAttr_insertOrAssign_self]
          rfl
        · rw [lookupAttr_insertOrAssign_ne _ _ _ _ (by decide),
            lookupAttr_insertOrAssign_ne _ _ _ _ (by decide),
            lookupAttr_insertOrAssign_ne _ _ _ _ (by decide)]
  | none =>
    rw [h1] at h
    cases h2 : o.revParseLocal o.defaultRef with
    | none => rw [h2] at h; cases h
    | some outp =>
      rw [h2] at h
      dsimp only at h
      cases h3 : isSha1Hash (chomp outp) with
      | false => rw [h3] at h; simp at h
      | true =>
        rw [h3] at h
        simp only [if_true] at h
        cases h4 : getRevCountRev o ri (chomp outp) with
        | error e => rw [h4] at h; cases h
        | ok rc =>
          rw [h4] at h
          dsimp only at h
          cases h5 : getLastModifiedRev o ri (chomp outp) with
          | error e => rw [h5] at h; cases h
          | ok lm =>
            rw [h5] at h
            cases h
            refine ⟨?_, ?_, ?_, ?_⟩
            · rw [lookupAttr_insertOrAssign_ne _ _ _ _ (by decide),
                lookupAttr_insertOrAssign_ne _ _ _ _ (by decide),
                lookupAttr_insertOrAssign_self]
              rfl
            · rw [lookupAttr_insertOrAssign_self]; rfl
            · rw [lookupAttr_insertOrAssign_ne _ _ _ _ (by decide),
                lookupAttr_insertOrAssign_self]
              rfl
            · rw [lookupAttr_insertOrAssign_ne _ _ _ _ (by decide),
                lookupAttr_insertOrAssign_ne _ _ _ _ (by decide),
                lookupAttr_insertOrAssign_ne _ _ _ _ (by decide),
                lookupAttr_insertOrAssign_ne _ _ _ _ (by decide)]

/-- A baseline run environment for the concrete scenarios: a fresh mirror
miss everywhere in the caches, a resolvable default ref, cached fact values
for revCount/lastModified, and all subprocesses succeeding. -/
def oBase : Oracle :=
  { lockedLookup := fun _ => none
    unlockedLookup := none
    defaultRef := "main"
    cacheDirExists := false
    revParseLocal := fun _ => some revHex40
    catFileEResult := .failExited
    localRefMtime := none
    now := 1000
    ttl := 100
    isShallowRepo1 := false
    isShallowRepo2 := false
    fetchOk := true
    localRefExistsAfterFetchFail := false
    localRefRead := some revHex40
    isShallowRepo3 := false
    factLastModified := fun _ => some 111
    gitLogLastModified := fun _ => some 111
    factRevCount := fun _ => some 5
    gitRevListCount := fun _ => some 5
    catFileCommitExit := 0
    catFileCommitBadFile := false
    submoduleCmdsOk := true
    storePathNew := "storePath1"
    narHashOf := fun _ => "sha256-NARHASH"
    allowDirty := true
    gitLogHeadLastModified := some 222 }

/-- A clean local repository with no flag set. -/
def riLocal : RepoInfo :=
  { shallow := false, submodules := false, allRefs := false, cacheType := "git",
    isLocal := true, isDirty := false, hasHead := true, url := "/home/user/repo",
    gitDir := ".git" }

/-- The same repository reached through a remote URL (mirror path). -/
def riRemote : RepoInfo :=
  { riLocal with isLocal := false, url := "https://example.org/repo" }

/-- Whether an event is a `git fetch` invocation. -/
def isFetchEvent : Event → Bool
  | .fetch _ _ _ _ => true
  | _ => false

/-- Whether the event trace contains a `git fetch` invocation. -/
def hasFetchEvent (evs : List Event) : Bool :=
  evs.any isFetchEvent

/-- The locked attributes the baseline native-path run returns. -/
def c1OutAttrs : Attrs :=
  [("ref", AttrVal.str "main"), ("rev", AttrVal.str revHex40),
   ("revCount", AttrVal.intv 5), ("lastModified", AttrVal.intv 111)]

/-- C1: on every successful return of `getAccessorFromCommit` the output
attributes carry `rev` and `lastModified`, and `revCount` when not shallow
(when shallow, the `revCount` lookup is whatever the input had); but
`narHash` is guaranteed only off the native path — the non-submodule
native-accessor return leaves `narHash` exactly as in the input, so it is
absent unless the caller supplied one. On the clean-checkout path `rev`,
`lastModified` and `revCount` are always set (`revCount` unconditionally,
shallow or not) and `narHash` again stays as in the input. -/
theorem C1_theorem :
    (∀ (o : Oracle) (ri : RepoInfo) (a : Attrs) (evs : List Event)
        (tg : PathTag) (out : Attrs),
      getAccessorFromCommit o ri a = (evs, .ok (tg, out)) →
      (lookupAttr out "rev").isSome = true
      ∧ (lookupAttr out "lastModified").isSome = true
      ∧ (ri.shallow = false → (lookupAttr out "revCount").isSome = true)
      ∧ (ri.shallow = true → lookupAttr out "revCount" = lookupAttr a "revCount")
      ∧ (tg = .native → lookupAttr out "narHash" = lookupAttr a "narHash")
      ∧ (tg ≠ .native → (lookupAttr out "narHash").isSome = true))
    ∧ (∀ (o : Oracle) (ri : RepoInfo) (a : Attrs) (out : Attrs),
      ri.isDirty = false → getAccessorFromCheckout o ri a = .ok out →
      (lookupAttr out "rev").isSome = true
      ∧ (lookupAttr out "lastModified").isSome = true
      ∧ (lookupAttr out "revCount").isSome = true
      ∧ lookupAttr out "narHash" = lookupAttr a "narHash") :=
  ⟨fun o ri a evs tg out h => getAccessorFromCommit_props o ri a evs tg out h,
   fun o ri a out hd h => getAccessorFromCheckout_props o ri a out hd h⟩

/-- C1 counterexample: a concrete clean local run takes the native path and
returns a locked input with `rev`, `revCount` and `lastModified` but no
`narHash`; and the checkout path of a shallow-flagged input still sets
`revCount`. -/
theorem C1_counterexample :
    ((getAccessorFromCommit oBase riLocal []).2 =
       Except.ok (PathTag.native, c1OutAttrs)
     ∧ lookupAttr c1OutAttrs "narHash" = none)
    ∧ (getAccessorFromCheckout oBase { riLocal with shallow := true } [] =
         Except.ok c1OutAttrs
       ∧ lookupAttr c1OutAttrs "revCount" = some (AttrVal.intv 5)) :=
  ⟨⟨rfl, rfl⟩, ⟨rfl, rfl⟩⟩

theorem fetchPhase_shallow_norev (o : Oracle) (ri : RepoInfo) (a : Attrs)
    (ref : String) (originalRef : Option String)
    (hs : ri.shallow = true) (hr : attrStr a "rev" = none)
    (hd : (fetchDecision o ri a).2 = Except.ok true) :
    (fetchPhase o ri a ref originalRef).2 = Except.error GitError.emptyOptionalDeref
    ∧ hasFetchEvent (fetchPhase o ri a ref originalRef).1 = false := by
  have hd' : (if ri.allRefs then true
      else match o.localRefMtime with
        | none => true
        | some m => !(isCacheFileWithinTtl o.now m o.ttl)) = true := by
    unfold fetchDecision at hd
    rw [hr] at hd
    exact Except.ok.inj hd
  unfold fetchPhase fetchDecision
  rw [hr]
  dsimp only
  rw [hd']
  simp only [Bool.true_or, if_true]
  rw [hs]
  simp only [if_true]
  refine ⟨trivial, ?_⟩
  cases hc : o.cacheDirExists <;> rfl

/-- C2: for a shallow input without a `rev` attribute, whenever the fetch
decision is positive the shallow refspec construction dereferences the unset
rev optional (`input.getRev()->gitRev()`, line 672 — undefined behavior,
modelled as `emptyOptionalDeref`), so no well-defined `git fetch --depth=1`
is ever issued and no locked input is returned; the concrete shallow remote
run without a rev hits exactly this. -/
theorem C2_theorem :
    (∀ (o : Oracle) (ri : RepoInfo) (a : Attrs) (ref : String)
        (originalRef : Option String),
      ri.shallow = true → attrStr a "rev" = none →
      (fetchDecision o ri a).2 = Except.ok true →
      (fetchPhase o ri a ref originalRef).2 =
        Except.error GitError.emptyOptionalDeref
      ∧ hasFetchEvent (fetchPhase o ri a ref originalRef).1 = false)
    ∧ getAccessorFromCommit oBase { riRemote with shallow := true } [] =
        ([Event.gitInit, Event.revParseIsShallow],
         Except.error GitError.emptyOptionalDeref) :=
  ⟨fun o ri a ref originalRef hs hr hd =>
     fetchPhase_shallow_norev o ri a ref originalRef hs hr hd, rfl⟩

/-- C3: when no `rev` is given, `allRefs` is off and the local ref file's
mtime is within the TTL, the fetch decision itself is negative — but the
mirror phase skips the fetch only if additionally the mirror is not a
shallow repository being asked for a full clone (`isShallowRepo1 &&
!shallow` off); under that extra condition no `git fetch` runs and the
revision is resolved from the cached ref file. -/
theorem C3_theorem (o : Oracle) (ri : RepoInfo) (a : Attrs) (ref : String)
    (originalRef : Option String) (m : Nat)
    (hrev : attrStr a "rev" = none) (hall : ri.allRefs = false)
    (hm : o.localRefMtime = some m)
    (hfresh : isCacheFileWithinTtl o.now m o.ttl = true)
    (hns : (o.isShallowRepo1 && !ri.shallow) = false) :
    hasFetchEvent (fetchPhase o ri a ref originalRef).1 = false
    ∧ (fetchPhase o ri a ref originalRef).2 = resolveRevFromRefFile o a := by
  unfold fetchPhase fetchDecision
  rw [hrev, hall, hm]
  simp only [Bool.false_eq_true, if_false]
  rw [hfresh]
  simp only [Bool.not_true, Bool.false_or]
  rw [hns]
  simp only [Bool.false_eq_true, if_false]
  refine ⟨?_, trivial⟩
  cases hc : o.cacheDirExists <;> rfl

/-- C3 witness: the concrete fresh-ref remote run (mtime 950, now 1000,
TTL 100, full mirror) issues no `git fetch`. -/
theorem C3_witness :
    attrStr [] "rev" = none
    ∧ riRemote.allRefs = false
    ∧ isCacheFileWithinTtl 1000 950 100 = true
    ∧ hasFetchEvent (fetchPhase { oBase with localRefMtime := some 950 }
        riRemote [] "main" none).1 = false :=
  ⟨rfl, rfl, by decide,
   (C3_theorem { oBase with localRefMtime := some 950 } riRemote [] "main" none
     950 rfl rfl rfl (by decide) rfl).1⟩

/-- C3 counterexample: with the identical fresh ref file, no rev and
`allRefs` off, a shallow mirror for a non-shallow input still runs
`git fetch` — the claim's "regardless of any other state of the mirror" is
false. -/
theorem C3_counterexample :
    isCacheFileWithinTtl 1000 950 100 = true
    ∧ riRemote.allRefs = false
    ∧ riRemote.shallow = false
    ∧ hasFetchEvent (getAccessorFromCommit
        { oBase with localRefMtime := some 950, isShallowRepo1 := true }
        riRemote []).1 = true :=
  ⟨by decide, rfl, rfl, rfl⟩

/-- C4: in the mirror fetch phase (fetch forced here via `allRefs`, no rev,
non-shallow): if `git fetch` fails and the local ref file is missing, the
error propagates and no mtime touch happens; if it fails but the ref file
exists, a warning is emitted and the cached ref file is used — but the
mtime touch and (when the caller gave no explicit ref) the symbolic-HEAD
update run on this warned-failure path exactly as they do on success,
because `touchCacheFile` and `storeCachedHead` sit after the catch block
(lines 680-683), not inside the success path. -/
theorem C4_theorem (o : Oracle) (ri : RepoInfo) (a : Attrs) (ref : String)
    (originalRef : Option String)
    (hall : ri.allRefs = true) (hrev : attrStr a "rev" = none)
    (hs : ri.shallow = false) :
    (o.fetchOk = false → o.localRefExistsAfterFetchFail = false →
      (fetchPhase o ri a ref originalRef).2 = Except.error GitError.fetchFailed
      ∧ Event.touch (localRefFileOf ref) ∉ (fetchPhase o ri a ref originalRef).1)
    ∧ (o.fetchOk = false → o.localRefExistsAfterFetchFail = true →
      Event.warnFetchFailed ∈ (fetchPhase o ri a ref originalRef).1
      ∧ Event.touch (localRefFileOf ref) ∈ (fetchPhase o ri a ref originalRef).1
      ∧ (originalRef = none →
          Event.symbolicRef ref ∈ (fetchPhase o ri a ref originalRef).1)
      ∧ (fetchPhase o ri a ref originalRef).2 = resolveRevFromRefFile o a)
    ∧ (o.fetchOk = true →
      Event.warnFetchFailed ∉ (fetchPhase o ri a ref originalRef).1
      ∧ Event.touch (localRefFileOf ref) ∈ (fetchPhase o ri a ref originalRef).1
      ∧ (originalRef = none →
          Event.symbolicRef ref ∈ (fetchPhase o ri a ref originalRef).1)
      ∧ (fetchPhase o ri a ref originalRef).2 = resolveRevFromRefFile o a) := by
  unfold fetchPhase fetchDecision
  rw [hrev, hall, hs]
  simp only [Bool.not_false, Bool.and_true, Bool.true_or, if_true,
    Bool.false_eq_true, if_false]
  refine ⟨?_, ?_, ?_⟩
  · intro hf hl
    rw [hf, hl]
    simp only [Bool.false_eq_true, if_false, Bool.not_false, if_true]
    refine ⟨trivial, ?_⟩
    cases hc : o.cacheDirExists <;> simp
  · intro hf hl
    rw [hf, hl]
    simp only [Bool.false_eq_true, if_false, Bool.not_true, if_true]
    refine ⟨?_, ?_, ?_, trivial⟩
    · cases hc : o.cacheDirExists <;> simp
    · cases hc : o.cacheDirExists <;> simp
    · intro ho
      rw [ho]
      cases hc : o.cacheDirExists <;> simp
  · intro hf
    rw [hf]
    simp only [if_true]
    refine ⟨?_, ?_, ?_, trivial⟩
    · cases hc : o.cacheDirExists <;> cases ho : originalRef <;> simp
    · cases hc : o.cacheDirExists <;> simp
    · intro ho
      rw [ho]
      cases hc : o.cacheDirExists <;> simp

/-- C4 witness: the concrete failed-fetch run with an existing ref file
emits the warning, still touches the ref file's mtime, and resolves from
the cached ref file. -/
theorem C4_witness :
    Event.warnFetchFailed ∈ (fetchPhase
      { oBase with fetchOk := false, localRefExistsAfterFetchFail := true }
      { riRemote with allRefs := true } [] "main" none).1
    ∧ Event.touch (localRefFileOf "main") ∈ (fetchPhase
      { oBase with fetchOk := false, localRefExistsAfterFetchFail := true }
      { riRemote with allRefs := true } [] "main" none).1
    ∧ (fetchPhase
      { oBase with fetchOk := false, localRefExistsAfterFetchFail := true }
      { riRemote with allRefs := true } [] "main" none).2 =
      resolveRevFromRefFile
        { oBase with fetchOk := false, localRefExistsAfterFetchFail := true } [] := by
  have h := C4_theorem
    { oBase with fetchOk := false, localRefExistsAfterFetchFail := true }
    { riRemote with allRefs := true } [] "main" none rfl rfl rfl
  obtain ⟨-, h2, -⟩ := h
  obtain ⟨w, t, _, r⟩ := h2 rfl rfl
  exact ⟨w, t, r⟩

/-- C4 counterexample: an end-to-end run whose `git fetch` fails with the
ref file present both warns and touches the ref file's mtime — and also
rewrites the mirror's symbolic HEAD — refuting "only on fetch success, not
on the warned failure path". -/
theorem C4_counterexample :
    Event.warnFetchFailed ∈ (getAccessorFromCommit
      { oBase with fetchOk := false, localRefExistsAfterFetchFail := true }
      riRemote []).1
    ∧ Event.touch "cacheDir/refs/heads/main" ∈ (getAccessorFromCommit
      { oBase with fetchOk := false, localRefExistsAfterFetchFail := true }
      riRemote []).1
    ∧ Event.symbolicRef "main" ∈ (getAccessorFromCommit
      { oBase with fetchOk := false, localRefExistsAfterFetchFail := true }
      riRemote []).1 :=
  ⟨by decide, by decide, by decide⟩

theorem commitFinish_events_nosub (o : Oracle) (ri : RepoInfo)
    (origRev : Option String) (a : Attrs) (ref : String)
    (hsub : ri.submodules = false) :
    (commitFinish o ri origRev a ref).1 = [Event.revParseIsShallow] := by
  unfold commitFinish
  rw [hsub]
  simp only [Bool.not_false, if_true]
  split
  · rfl
  · split
    · rfl
    · split
      · rfl
      · split
        · rfl
        · split
          · rfl
          · rfl

/-- C7: the `git cat-file commit` existence check with its exit-128 /
`bad file` user-directed error (naming the rev, the ref and the URL) fires
on the submodule materialization path — but only there: a fetch without
submodules never runs `git cat-file commit` at all in the finishing stage
(the non-submodule native return precedes the check), so "with or without
submodules" is false. -/
theorem C7_theorem :
    (∀ (o : Oracle) (ri : RepoInfo) (origRev : Option String) (a : Attrs)
        (ref rev : String) (lm : Nat),
      ri.submodules = true →
      attrStr a "rev" = some rev →
      (o.isShallowRepo3 && !ri.shallow) = false →
      getLastModifiedRev o ri rev = Except.ok lm →
      (ri.shallow = false → ∃ rc, getRevCountRev o ri rev = Except.ok rc) →
      o.lockedLookup rev = none →
      o.catFileCommitExit = 128 →
      o.catFileCommitBadFile = true →
      commitFinish o ri origRev a ref =
        ([Event.revParseIsShallow, Event.catFileCommit rev],
         Except.error (GitError.revNotFoundInRef rev ref ri.url)))
    ∧ (∀ (o : Oracle) (ri : RepoInfo) (origRev : Option String) (a : Attrs)
        (ref rev : String),
      ri.submodules = false →
      Event.catFileCommit rev ∉ (commitFinish o ri origRev a ref).1) := by
  constructor
  · intro o ri origRev a ref rev lm hsub hrev hsh3 hlm hrc hlock hexit hbad
    unfold commitFinish
    rw [hsh3]
    simp only [Bool.false_eq_true, if_false]
    rw [hrev]
    dsimp only
    rw [hlm]
    dsimp only
    cases hsv : ri.shallow with
    | false =>
      obtain ⟨rc, hrc'⟩ := hrc hsv
      simp only [Bool.not_false, if_true]
      rw [hrc']
      dsimp only
      rw [hlock]
      dsimp only
      rw [hsub]
      simp only [Bool.not_true, Bool.false_eq_true, if_false]
      rw [hexit, hbad]
      simp
    | true =>
      simp only [Bool.not_true, Bool.false_eq_true, if_false]
      rw [hlock]
      dsimp only
      rw [hsub]
      simp only [Bool.not_true, Bool.false_eq_true, if_false]
      rw [hexit, hbad]
      simp
  · intro o ri origRev a ref rev hsub
    rw [commitFinish_events_nosub o ri origRev a ref hsub]
    simp

/-- C7 counterexample: a non-submodule fetch of a rev the repository lacks
(`cat-file commit` would exit 128 with `bad file`) never reaches the check:
the run returns the native accessor successfully and no `git cat-file
commit` subprocess appears in its trace. -/
theorem C7_counterexample :
    (getAccessorFromCommit
      { oBase with catFileCommitExit := 128, catFileCommitBadFile := true }
      riRemote [("rev", AttrVal.str revHex40), ("ref", AttrVal.str "main")]).2 =
      Except.ok (PathTag.native,
        [("rev", AttrVal.str revHex40), ("ref", AttrVal.str "main"),
         ("revCount", AttrVal.intv 5), ("lastModified", AttrVal.intv 111)])
    ∧ Event.catFileCommit revHex40 ∉ (getAccessorFromCommit
      { oBase with catFileCommitExit := 128, catFileCommitBadFile := true }
      riRemote [("rev", AttrVal.str revHex40), ("ref", AttrVal.str "main")]).1 :=
  ⟨rfl, by decide⟩
